import Mathlib

/-!
Verification of the MA-crossover backtester (src/backend/app/data/processing.py)
against its natural-language specification.

Modelling conventions, applied throughout:
- Python floats are idealized as rationals; all arithmetic is exact.
- pandas NaN cells become `Option` values (`none` = missing / NaN).
- The display-precision calls `round(x, 6)` that the source applies to the
  fields it records in trade dicts and in the metrics dict are omitted:
  they are formatting, and every property below is independent of them.
- A pandas Series of closes is a `List Rat`; a column that can hold NaN is a
  `List (Option Rat)`.
-/

set_option maxRecDepth 4000

namespace Backtester

/-! ## Indicator engine: calculate_sma, calculate_ema, calculate_wma -/

/-- Mirrors `series.rolling(window=period, min_periods=period).mean()` from
`calculate_sma`.  Entry `i` is the mean of the trailing `period` closes ending
at `i`, defined once `period` observations exist (pandas raises for a window
below 1; we return an all-undefined series in that degenerate case, which no
claim touches). -/
def calculate_sma (series : List ℚ) (period : ℕ) : List (Option ℚ) :=
  (List.range series.length).map fun i =>
    if 1 ≤ period ∧ period ≤ i + 1 then
      some ((((series.drop (i + 1 - period)).take period).sum) / (period : ℚ))
    else none

/-- The `adjust=False` exponential recursion of `Series.ewm`: given the previous
smoothed value, each step computes `(1 - alpha) * prev + alpha * x`. -/
def ewmFrom (alpha : ℚ) (prev : ℚ) : List ℚ → List ℚ
  | [] => []
  | x :: xs => ((1 - alpha) * prev + alpha * x) :: ewmFrom alpha ((1 - alpha) * prev + alpha * x) xs

/-- The full `ewm(adjust=False)` value series: seeded with the first element. -/
def ewmVals (alpha : ℚ) : List ℚ → List ℚ
  | [] => []
  | x :: xs => x :: ewmFrom alpha x xs

/-- Mirrors `series.ewm(span=period, adjust=False, min_periods=period).mean()`
from `calculate_ema`: the recursive smoothed values with `alpha = 2/(span+1)`,
masked to undefined until `period` observations have accumulated. -/
def calculate_ema (series : List ℚ) (period : ℕ) : List (Option ℚ) :=
  let alpha : ℚ := 2 / ((period : ℚ) + 1)
  let ys := ewmVals alpha series
  (List.range series.length).map fun i =>
    if 1 ≤ period ∧ period ≤ i + 1 then ys.get? i else none

/-- Mirrors `calculate_wma`: all-undefined for `period < 1`, the identity series
for `period == 1`, and otherwise the linearly weighted trailing-`period` mean
via `rolling(period).apply` (whose default `min_periods` equals the window). -/
def calculate_wma (series : List ℚ) (period : ℕ) : List (Option ℚ) :=
  if period < 1 then series.map (fun _ => none)
  else if period = 1 then series.map some
  else
    let weights := (List.range period).map (fun k => ((k + 1 : ℕ) : ℚ))
    (List.range series.length).map fun i =>
      if period ≤ i + 1 then
        some ((((series.drop (i + 1 - period)).take period).zipWith (· * ·) weights).sum
          / weights.sum)
      else none

theorem getD_range_map {α : Type} (f : ℕ → Option α) {n i : ℕ} (h : i < n) :
    ((List.range n).map f).getD i none = f i := by
  simp [List.getD, List.getElem?_map, List.getElem?_range, h]

theorem isSome_ite_none {α : Type} {c : Prop} [Decidable c] {o : Option α}
    (h : o.isSome = true) : ((if c then o else none).isSome = true) ↔ c := by
  split <;> simp_all

theorem ewmFrom_length (alpha prev : ℚ) (l : List ℚ) :
    (ewmFrom alpha prev l).length = l.length := by
  induction l generalizing prev with
  | nil => rfl
  | cons x xs ih => simp [ewmFrom, ih]

theorem ewmVals_length (alpha : ℚ) (l : List ℚ) :
    (ewmVals alpha l).length = l.length := by
  cases l with
  | nil => rfl
  | cons x xs => simp [ewmVals, ewmFrom_length]

/-- C8: for every close series and every period at least 1 that the series can
fill, each of SMA, EMA and WMA returns a same-length series that is undefined
at exactly the first `period - 1` indices and defined from index `period - 1`
onward. -/
theorem ma_warmup (series : List ℚ) (period : ℕ)
    (h1 : 1 ≤ period) (h2 : period ≤ series.length) :
    ((calculate_sma series period).length = series.length ∧
      ∀ i, i < series.length →
        (((calculate_sma series period).getD i none).isSome = true ↔ period - 1 ≤ i)) ∧
    ((calculate_ema series period).length = series.length ∧
      ∀ i, i < series.length →
        (((calculate_ema series period).getD i none).isSome = true ↔ period - 1 ≤ i)) ∧
    ((calculate_wma series period).length = series.length ∧
      ∀ i, i < series.length →
        (((calculate_wma series period).getD i none).isSome = true ↔ period - 1 ≤ i)) := by
  refine ⟨⟨?_, ?_⟩, ⟨?_, ?_⟩, ⟨?_, ?_⟩⟩
  · simp [calculate_sma]
  · intro i hi
    rw [show calculate_sma series period =
        (List.range series.length).map (fun i =>
          if 1 ≤ period ∧ period ≤ i + 1 then
            some ((((series.drop (i + 1 - period)).take period).sum) / (period : ℚ))
          else none) from rfl,
      getD_range_map _ hi, isSome_ite_none (by simp)]
    omega
  · simp [calculate_ema]
  · intro i hi
    have hlen : i < (ewmVals (2 / ((period : ℚ) + 1)) series).length := by
      rw [ewmVals_length]; exact hi
    rw [show calculate_ema series period =
        (List.range series.length).map (fun i =>
          if 1 ≤ period ∧ period ≤ i + 1 then
            (ewmVals (2 / ((period : ℚ) + 1)) series).get? i else none) from rfl,
      getD_range_map _ hi,
      isSome_ite_none (by rw [List.get?_eq_get hlen]; rfl)]
    omega
  · rcases Nat.lt_or_ge period 2 with hp | hp
    · have : period = 1 := by omega
      simp [calculate_wma, this]
    · have hn1 : ¬ period < 1 := by omega
      have hn2 : ¬ period = 1 := by omega
      simp [calculate_wma, hn1, hn2]
  · intro i hi
    rcases Nat.lt_or_ge period 2 with hp | hp
    · have hp1 : period = 1 := by omega
      subst hp1
      have hget : (calculate_wma series 1).getD i none = some series[i] := by
        simp [calculate_wma, List.getD, List.getElem?_map, List.getElem?_eq_getElem hi]
      rw [hget]; simp
    · have hn1 : ¬ period < 1 := by omega
      have hn2 : ¬ period = 1 := by omega
      rw [show calculate_wma series period =
          (List.range series.length).map (fun i =>
            if period ≤ i + 1 then
              some ((((series.drop (i + 1 - period)).take period).zipWith (· * ·)
                ((List.range period).map (fun k => ((k + 1 : ℕ) : ℚ)))).sum
                / ((List.range period).map (fun k => ((k + 1 : ℕ) : ℚ))).sum)
            else none) by
        simp only [calculate_wma, if_neg hn1, if_neg hn2],
        getD_range_map _ hi, isSome_ite_none (by simp)]
      omega

/-- Witness for C8 at a concrete input: period 2 on the series [1, 2, 3]. -/
theorem ma_warmup_witness :
    (1 ≤ 2 ∧ 2 ≤ ([1, 2, 3] : List ℚ).length) ∧
    (((calculate_sma [1, 2, 3] 2).length = ([1, 2, 3] : List ℚ).length ∧
      ∀ i, i < ([1, 2, 3] : List ℚ).length →
        (((calculate_sma [1, 2, 3] 2).getD i none).isSome = true ↔ 2 - 1 ≤ i)) ∧
    ((calculate_ema [1, 2, 3] 2).length = ([1, 2, 3] : List ℚ).length ∧
      ∀ i, i < ([1, 2, 3] : List ℚ).length →
        (((calculate_ema [1, 2, 3] 2).getD i none).isSome = true ↔ 2 - 1 ≤ i)) ∧
    ((calculate_wma [1, 2, 3] 2).length = ([1, 2, 3] : List ℚ).length ∧
      ∀ i, i < ([1, 2, 3] : List ℚ).length →
        (((calculate_wma [1, 2, 3] 2).getD i none).isSome = true ↔ 2 - 1 ≤ i))) :=
  ⟨⟨by norm_num, by norm_num⟩, ma_warmup [1, 2, 3] 2 (by norm_num) (by norm_num)⟩

/-! ## Data model: configuration, trades, equity snapshots -/

/-- The subset of the CONFIG dictionary consumed by `simulate_trades` and
`calculate_metrics` (moving-average and universe options feed the earlier
pipeline stages and never reach these two functions). -/
structure SimConfig where
  initial_capital : ℚ
  stop_loss_pct : ℚ
  take_profit_pct : ℚ
  position_size : ℤ
  enable_commission : Bool
  commission_per_trade : ℚ
  commission_pct : ℚ
  enable_slippage : Bool
  slippage_pct : ℚ
  enable_atr_stop : Bool
  atr_multiplier_sl : ℚ
  atr_multiplier_tp : ℚ
  enable_risk_sizing : Bool
  risk_per_trade_pct : ℚ
deriving DecidableEq

/-- The four values the source writes into a trade dict under exit_reason. -/
inductive ExitReason where
  | stop_loss
  | take_profit
  | signal_exit
  | eod_force_close
deriving DecidableEq

/-- One entry of the trade ledger, mirroring the dict appended to `trades`
(numeric fields exact, the round(x, 6) display formatting omitted). -/
structure Trade where
  symbol : ℕ
  entry_date : ℕ
  entry_price : ℚ
  exit_date : ℕ
  exit_price : ℚ
  shares : ℤ
  gross_pnl : ℚ
  commissions : ℚ
  net_pnl : ℚ
  pnl_pct : ℚ
  exit_reason : ExitReason
  bars_held : ℤ
deriving DecidableEq

/-- One row of the equity time series appended to `equity_ts`. -/
structure EquitySnapshot where
  date : ℕ
  cash : ℚ
  pos_value : ℚ
  equity : ℚ
deriving DecidableEq

/-- An in-flight position, mirroring the dict stored in `positions[sym]`. -/
structure Position where
  entry_price : ℚ
  shares : ℤ
  entry_date : ℕ
  entry_comm : ℚ
deriving DecidableEq

/-! ## Metrics calculator: calculate_metrics -/

/-- Ordering used by `df_trades.sort_values('exit_date')`. -/
def tradeLE (a b : Trade) : Prop := a.exit_date ≤ b.exit_date

instance : DecidableRel tradeLE := fun a b => Nat.decLe a.exit_date b.exit_date

/-- Arithmetic mean of a list, as pandas `.mean()` on a non-empty column. -/
def meanQ (l : List ℚ) : ℚ := l.sum / (l.length : ℚ)

/-- pandas `.max()` of a column (only used on non-empty columns). -/
def maxQ : List ℚ → ℚ
  | [] => 0
  | x :: xs => xs.foldl max x

/-- pandas `.min()` of a column (only used on non-empty columns). -/
def minQ : List ℚ → ℚ
  | [] => 0
  | x :: xs => xs.foldl min x

/-- Helper for `cumsum`: prefix sums continuing from an accumulator. -/
def cumsumFrom (acc : ℚ) : List ℚ → List ℚ
  | [] => []
  | x :: xs => (acc + x) :: cumsumFrom (acc + x) xs

/-- pandas `.cumsum()`. -/
def cumsum (l : List ℚ) : List ℚ := cumsumFrom 0 l

/-- Helper for `cummax`: running maxima continuing from an accumulator. -/
def cummaxFrom (m : ℚ) : List ℚ → List ℚ
  | [] => []
  | x :: xs => (max m x) :: cummaxFrom (max m x) xs

/-- pandas `.cummax()`. -/
def cummax : List ℚ → List ℚ
  | [] => []
  | x :: xs => x :: cummaxFrom x xs

/-- The drawdown reduction of `calculate_metrics`: running maximum equity
clipped below at the initial capital, percentage drawdown per row, then the
minimum (0 for an empty series, as in the source's emptiness guard). -/
def maxDrawdownPct (ic : ℚ) (es : List ℚ) : ℚ :=
  let rm := (cummax es).map (fun v => max v ic)
  minQ (es.zipWith (fun e r => (e - r) / r * 100) rm)

/-- Sample variance with the pandas default ddof = 1; `std > 0` in the source
is equivalent to this variance being positive. -/
def sampleVar (l : List ℚ) : ℚ :=
  ((l.map (fun x => (x - meanQ l) ^ 2)).sum) / ((l.length : ℚ) - 1)

/-- Shallow encoding of the Sharpe value: `annualized m v` stands for the real
number m / sqrt v * sqrt 252 computed by the source; `zero` is the literal 0.0
of the guard branch (fewer than two trades, or zero variance). The square root
is irrational, so the embedding keeps the pair (mean, sample variance) instead
of the quotient. -/
inductive SharpeVal where
  | zero
  | annualized (mean svar : ℚ)
deriving DecidableEq

/-- Mirrors the Sharpe branch of `calculate_metrics` on the per-trade return
column. -/
def sharpeOf (returns : List ℚ) : SharpeVal :=
  if 1 < returns.length ∧ 0 < sampleVar returns then
    .annualized (meanQ returns) (sampleVar returns)
  else .zero

/-- The equity value series the metrics are computed from: the attached equity
curve when it is present and non-empty, otherwise the cumulative-net-pnl
reconstruction `initial_capital + cumsum(net_pnl)` over exit-date-sorted
trades. -/
def metricsEquitySeries (ic : ℚ) (sorted : List Trade)
    (equityOpt : Option (List EquitySnapshot)) : List ℚ :=
  match equityOpt with
  | some (e :: es) => (e :: es).map (·.equity)
  | _ => (cumsum (sorted.map (·.net_pnl))).map (fun c => ic + c)

/-- The total-return percentage, computed per branch exactly as each branch of
the source writes it. -/
def metricsTotalReturnPct (ic : ℚ) (sorted : List Trade)
    (equityOpt : Option (List EquitySnapshot)) : ℚ :=
  match equityOpt with
  | some (e :: es) => (((e :: es).map (·.equity)).getLastD 0 - ic) / ic * 100
  | _ => (cumsum (sorted.map (·.net_pnl))).getLastD 0 / ic * 100

/-- The full metrics record returned by `calculate_metrics`.  The
profit_factor field uses `none` for the `np.inf` sentinel. -/
structure Metrics where
  total_trades : ℕ
  winning_trades : ℕ
  losing_trades : ℕ
  win_rate_pct : ℚ
  avg_profit_pct : ℚ
  avg_loss_pct : ℚ
  max_win : ℚ
  max_loss : ℚ
  profit_factor : Option ℚ
  max_drawdown_pct : ℚ
  total_return_pct : ℚ
  sharpe : SharpeVal
  gross_profit : ℚ
  gross_loss : ℚ
  net_profit : ℚ
  net_profit_pct : ℚ
deriving DecidableEq

/-- Mirrors `calculate_metrics(trades, equity_df, config)`.  An empty ledger
returns the literal all-zero record; otherwise the trade ledger is sorted by
exit date, split into wins (net_pnl > 0) and losses (net_pnl <= 0), and
reduced field by field as in the source. -/
def calculate_metrics (trades : List Trade)
    (equityOpt : Option (List EquitySnapshot)) (cfg : SimConfig) : Metrics :=
  match trades with
  | [] =>
      { total_trades := 0, winning_trades := 0, losing_trades := 0
        win_rate_pct := 0, avg_profit_pct := 0, avg_loss_pct := 0
        max_win := 0, max_loss := 0, profit_factor := some 0
        max_drawdown_pct := 0, total_return_pct := 0, sharpe := .zero
        gross_profit := 0, gross_loss := 0, net_profit := 0, net_profit_pct := 0 }
  | t :: ts =>
      let ic := cfg.initial_capital
      let df := List.insertionSort tradeLE (t :: ts)
      let wins := df.filter (fun u => decide (0 < u.net_pnl))
      let losses := df.filter (fun u => decide (u.net_pnl ≤ 0))
      let gp := if 0 < wins.length then (wins.map (·.net_pnl)).sum else 0
      let gl := if 0 < losses.length then |(losses.map (·.net_pnl)).sum| else 0
      { total_trades := df.length
        winning_trades := wins.length
        losing_trades := losses.length
        win_rate_pct := if 0 < df.length then (wins.length : ℚ) / (df.length : ℚ) * 100 else 0
        avg_profit_pct := if 0 < wins.length then meanQ (wins.map (·.pnl_pct)) else 0
        avg_loss_pct := if 0 < losses.length then meanQ (losses.map (·.pnl_pct)) else 0
        max_win := maxQ (df.map (·.net_pnl))
        max_loss := minQ (df.map (·.net_pnl))
        profit_factor := if 0 < gl then some (gp / gl) else none
        max_drawdown_pct := maxDrawdownPct ic (metricsEquitySeries ic df equityOpt)
        total_return_pct := metricsTotalReturnPct ic df equityOpt
        sharpe := sharpeOf (df.map (fun u => u.net_pnl / ic))
        gross_profit := gp
        gross_loss := gl
        net_profit := gp - gl
        net_profit_pct := if ic ≠ 0 then (gp - gl) / ic * 100 else 0 }

/-! ## Portfolio simulator: simulate_trades

Dates are natural numbers (trading-day ordinals).  The input of
`simulate_trades` is the signal DataFrame grouped by symbol: a list of
(symbol, rows) pairs in ascending symbol order, as produced by the source's
iteration over `sorted(df['symbol'].unique())`; the dict `sym_frames` has one
entry per symbol, so theorems that need it take the key list to be duplicate
free.  Rows carry exactly the columns `simulate_trades` reads: date, open,
high, low, close, atr (NaN as `none`), cross_up, cross_down. -/

/-- One row of the per-symbol signal frame handed to `simulate_trades`. -/
structure SigRow where
  date : ℕ
  open_p : ℚ
  high : ℚ
  low : ℚ
  close : ℚ
  atr : Option ℚ
  cross_up : Bool
  cross_down : Bool
deriving DecidableEq

/-- A row after the preparation loop of `simulate_trades` added the shifted
helper columns entry_on_date / exit_on_date. -/
structure SimRow where
  date : ℕ
  open_p : ℚ
  high : ℚ
  low : ℚ
  close : ℚ
  atr : Option ℚ
  entry_on : Bool
  exit_on : Bool
deriving DecidableEq

/-- Ordering used to sort a symbol frame by date. -/
def sigLE (a b : SigRow) : Prop := a.date ≤ b.date

instance : DecidableRel sigLE := fun a b => Nat.decLe a.date b.date

/-- Ordering used by `equity_df.sort_values('date')`. -/
def snapLE (a b : EquitySnapshot) : Prop := a.date ≤ b.date

instance : DecidableRel snapLE := fun a b => Nat.decLe a.date b.date

instance : IsTotal EquitySnapshot snapLE := ⟨fun a b => Nat.le_total a.date b.date⟩

instance : IsTrans EquitySnapshot snapLE := ⟨fun _ _ _ h1 h2 => Nat.le_trans h1 h2⟩

/-- The per-symbol preparation in `simulate_trades`: sort the frame by date,
then add `entry_on_date` (previous bar's cross_up, first bar 0) and
`exit_on_date` (previous bar's cross_down, first bar 0). -/
def prepFrame (rows : List SigRow) : List SimRow :=
  let s := List.insertionSort sigLE rows
  s.zipWith
    (fun r p => { date := r.date, open_p := r.open_p, high := r.high, low := r.low,
                  close := r.close, atr := r.atr, entry_on := p.1, exit_on := p.2 })
    ((false, false) :: s.map (fun r => (r.cross_up, r.cross_down)))

/-- Mirrors `apply_slippage`: if slippage is enabled and positive, worsen the
price against the trader (up for an entry, down for an exit). -/
def apply_slippage (price : ℚ) (is_entry : Bool) (cfg : SimConfig) : ℚ :=
  if cfg.enable_slippage = true ∧ 0 < cfg.slippage_pct then
    if is_entry then price + price * (cfg.slippage_pct / 100)
    else price - price * (cfg.slippage_pct / 100)
  else price

/-- Mirrors `commission_cost`: flat fee plus optional percentage of notional,
only when commission is enabled. -/
def commission_cost (price : ℚ) (shares : ℤ) (cfg : SimConfig) : ℚ :=
  if cfg.enable_commission = true then
    cfg.commission_per_trade +
      (if 0 < cfg.commission_pct then |price * (shares : ℚ) * (cfg.commission_pct / 100)| else 0)
  else 0

/-- The stop/target prices computed in the exit phase: ATR offsets from the
entry price when ATR-stop mode is on and the bar's ATR is defined, else fixed
percentages of the entry price. -/
def stopTake (cfg : SimConfig) (pos : Position) (row : SimRow) : ℚ × ℚ :=
  match (if cfg.enable_atr_stop = true then row.atr else none) with
  | some a => (pos.entry_price - cfg.atr_multiplier_sl * a,
               pos.entry_price + cfg.atr_multiplier_tp * a)
  | none => (pos.entry_price * (1 - cfg.stop_loss_pct / 100),
             pos.entry_price * (1 + cfg.take_profit_pct / 100))

/-- The fixed-order exit resolution of the exit phase: stop-loss first, then
take-profit, then the deferred signal exit at the bar's open; first match
wins, at most one exit per symbol per day. -/
def exitDecision (cfg : SimConfig) (row : SimRow) (stop_price take_price : ℚ) :
    Option (ℚ × ExitReason) :=
  if row.low ≤ stop_price then some (stop_price, .stop_loss)
  else if take_price ≤ row.high then some (take_price, .take_profit)
  else if row.exit_on = true then some (apply_slippage row.open_p false cfg, .signal_exit)
  else none

/-- Mirrors `_safe_bars_held` / the force-close `get_loc` difference: the
positional index distance between the two dates in the frame.  Both dates are
always dates of frame rows when this is reached, so the source's
business-day fallback branch is unreachable and not modelled. -/
def barsHeld (s : List SimRow) (exit_d entry_d : ℕ) : ℤ :=
  ((s.findIdx (fun r => r.date == exit_d) : ℤ)) - ((s.findIdx (fun r => r.date == entry_d) : ℤ))

/-- The mutable state of the date loop: the shared cash pool, the open
positions dict (association list in insertion order, as a Python dict), the
trade ledger and the equity time series, all append-only except position
removal. -/
structure SimState where
  cash : ℚ
  positions : List (ℕ × Position)
  trades : List Trade
  equity : List EquitySnapshot
deriving DecidableEq

/-- Exit processing for one held symbol on one date (one iteration of the
exit loop).  Skips when the symbol has no market data today; otherwise
resolves stop/take/signal in fixed order, re-applies slippage to the chosen
price when slippage is enabled (the source applies it a second time to a
signal-exit price that is already slippage-adjusted), credits the proceeds,
appends the trade and deletes the position.  The lookup-failure fallbacks
mirror states the source cannot reach (a held symbol always has a frame). -/
def exitOne (fs : List (ℕ × List SimRow)) (cfg : SimConfig) (d : ℕ)
    (st : SimState) (sym : ℕ) : SimState :=
  match st.positions.lookup sym with
  | none => st
  | some pos =>
    match fs.lookup sym with
    | none => st
    | some s =>
      match s.find? (fun r => r.date == d) with
      | none => st
      | some row =>
        let sp := stopTake cfg pos row
        match exitDecision cfg row sp.1 sp.2 with
        | none => st
        | some pr =>
          let exit_price := if cfg.enable_slippage = true then
              apply_slippage pr.1 false cfg else pr.1
          let exit_comm := commission_cost exit_price pos.shares cfg
          let proceeds := exit_price * (pos.shares : ℚ) - exit_comm
          let gross_pnl := (exit_price - pos.entry_price) * (pos.shares : ℚ)
          let total_comm := pos.entry_comm + exit_comm
          { cash := st.cash + proceeds
            positions := st.positions.eraseP (fun q => sym == q.1)
            trades := st.trades ++
              [{ symbol := sym, entry_date := pos.entry_date,
                 entry_price := pos.entry_price, exit_date := d,
                 exit_price := exit_price, shares := pos.shares,
                 gross_pnl := gross_pnl, commissions := total_comm,
                 net_pnl := gross_pnl - total_comm,
                 pnl_pct := (exit_price - pos.entry_price) / pos.entry_price * 100,
                 exit_reason := pr.2, bars_held := barsHeld s d pos.entry_date }]
            equity := st.equity }

/-- The exit phase: iterate over a snapshot of the currently held symbols
(`list(positions.keys())`), in dict insertion order. -/
def exitPhase (fs : List (ℕ × List SimRow)) (cfg : SimConfig) (d : ℕ)
    (st : SimState) : SimState :=
  (st.positions.map (·.1)).foldl (exitOne fs cfg d) st

/-- Entry processing for one symbol frame on one date (one iteration of the
entry loop): requires a bar today with entry_on_date set and no open position;
prices the entry at the slippage-adjusted open; sizes the position (risk-based
with its ATR / fixed-percentage per-share risk and fallback, or the fixed
configured size); caps at affordability, skips non-positive share counts and
entries whose total cost exceeds cash plus the 1e-9 guard tolerance; commits
by debiting cash and inserting the position at the end of the dict.
`entryCommit` is the tail of the entry iteration from the share-count guard
onward (source lines 401-418); `entryOne` is the full iteration. -/
def entryCommit (cfg : SimConfig) (d : ℕ) (st : SimState) (sym : ℕ)
    (entry_price : ℚ) (shares : ℤ) : SimState :=
  if shares ≤ 0 then st
  else
    let entry_comm := commission_cost entry_price shares cfg
    let total_entry_cost := entry_price * (shares : ℚ) + entry_comm
    if st.cash + 1 / 1000000000 < total_entry_cost then st
    else
      { cash := st.cash - total_entry_cost
        positions := st.positions ++
          [(sym, { entry_price := entry_price, shares := shares,
                   entry_date := d, entry_comm := entry_comm })]
        trades := st.trades
        equity := st.equity }

def entryOne (cfg : SimConfig) (d : ℕ) (st : SimState)
    (f : ℕ × List SimRow) : SimState :=
  match f.2.find? (fun r => r.date == d) with
  | none => st
  | some row =>
    if row.entry_on ≠ true then st
    else if (st.positions.lookup f.1).isSome then st
    else
      let entry_price := apply_slippage row.open_p true cfg
      let desired_shares : ℤ :=
        if cfg.enable_risk_sizing = true then
          let per_share_risk : ℚ :=
            match (if cfg.enable_atr_stop = true then row.atr else none) with
            | some a => cfg.atr_multiplier_sl * a
            | none => entry_price * (cfg.stop_loss_pct / 100)
          let risk_amount := st.cash * (cfg.risk_per_trade_pct / 100)
          if per_share_risk ≤ 0 then cfg.position_size
          else max 1 ⌊risk_amount / per_share_risk⌋
        else cfg.position_size
      let max_affordable : ℤ :=
        ⌊st.cash / (if 0 < entry_price then entry_price else 1 / 1000000000)⌋
      entryCommit cfg d st f.1 entry_price (min desired_shares max_affordable)

/-- The entry phase: iterate over `sym_frames.items()` (ascending symbol
order, the order the frames dict was built in). -/
def entryPhase (fs : List (ℕ × List SimRow)) (cfg : SimConfig) (d : ℕ)
    (st : SimState) : SimState :=
  fs.foldl (entryOne cfg d) st

/-- End-of-day mark price for one frame: today's close when the symbol traded
today, else `s['close'].ffill().iloc[-1]` — the last close of the entire
frame (closes are never NaN after preprocessing, so ffill is the identity).
The empty-frame fallback 0 mirrors a state the source cannot reach. -/
def markClose (s : List SimRow) (d : ℕ) : ℚ :=
  match s.find? (fun r => r.date == d) with
  | some row => row.close
  | none => ((s.getLast?).map (·.close)).getD 0

/-- `markClose` looked up through the frames dict (0 for a held symbol with
no frame, unreachable in the source). -/
def markCloseF (fs : List (ℕ × List SimRow)) (sym : ℕ) (d : ℕ) : ℚ :=
  match fs.lookup sym with
  | some s => markClose s d
  | none => 0

/-- Total open-position value of the end-of-day valuation loop. -/
def eodValue (fs : List (ℕ × List SimRow)) (d : ℕ)
    (positions : List (ℕ × Position)) : ℚ :=
  (positions.map (fun q => (q.2.shares : ℚ) * markCloseF fs q.1 d)).sum

/-- One full date of the loop: exit phase, entry phase, then append the
end-of-day equity snapshot. -/
def dayStep (fs : List (ℕ × List SimRow)) (cfg : SimConfig)
    (st : SimState) (d : ℕ) : SimState :=
  let st2 := entryPhase fs cfg d (exitPhase fs cfg d st)
  let pv := eodValue fs d st2.positions
  { st2 with equity := st2.equity ++ [{ date := d, cash := st2.cash, pos_value := pv,
                                        equity := st2.cash + pv }] }

/-- The date loop folded over a date list. -/
def runLoop (fs : List (ℕ × List SimRow)) (cfg : SimConfig)
    (dates : List ℕ) (st : SimState) : SimState :=
  dates.foldl (dayStep fs cfg) st

/-- Force-close of one remaining position at the symbol's last available
close (one iteration of the post-loop cleanup): commission applies, slippage
does not.  The frame/emptiness fallbacks mirror unreachable states. -/
def forceCloseOne (fs : List (ℕ × List SimRow)) (cfg : SimConfig)
    (st : SimState) (q : ℕ × Position) : SimState :=
  match fs.lookup q.1 with
  | none => st
  | some s =>
    match s.getLast? with
    | none => st
    | some lastRow =>
      let exit_price := lastRow.close
      let exit_comm := commission_cost exit_price q.2.shares cfg
      let proceeds := exit_price * (q.2.shares : ℚ) - exit_comm
      let gross_pnl := (exit_price - q.2.entry_price) * (q.2.shares : ℚ)
      let total_comm := q.2.entry_comm + exit_comm
      { cash := st.cash + proceeds
        positions := st.positions.eraseP (fun p => q.1 == p.1)
        trades := st.trades ++
          [{ symbol := q.1, entry_date := q.2.entry_date,
             entry_price := q.2.entry_price, exit_date := lastRow.date,
             exit_price := exit_price, shares := q.2.shares,
             gross_pnl := gross_pnl, commissions := total_comm,
             net_pnl := gross_pnl - total_comm,
             pnl_pct := (exit_price - q.2.entry_price) / q.2.entry_price * 100,
             exit_reason := .eod_force_close,
             bars_held := barsHeld s lastRow.date q.2.entry_date }]
        equity := st.equity }

/-- The date of the final forced-close equity snapshot: the Python loop
variable `last_date` leaks out of the cleanup loop, so it is the final date of
the LAST force-closed symbol's frame. -/
def forceCloseDate (fs : List (ℕ × List SimRow)) (ps : List (ℕ × Position)) : ℕ :=
  ((((ps.getLast?).bind (fun q => fs.lookup q.1)).bind (fun s => s.getLast?)).map (·.date)).getD 0

/-- The post-loop cleanup: when positions remain open, force-close each over a
snapshot of the dict, then append one final equity snapshot at `last_date`
with position value 0 and equity equal to cash. -/
def forceClose (fs : List (ℕ × List SimRow)) (cfg : SimConfig)
    (st : SimState) : SimState :=
  match st.positions with
  | [] => st
  | _ :: _ =>
    let ps := st.positions
    let st2 := ps.foldl (forceCloseOne fs cfg) st
    { st2 with equity := st2.equity ++
        [{ date := forceCloseDate fs ps, cash := st2.cash, pos_value := 0,
           equity := st2.cash }] }

/-- The initial simulator state: the full initial capital, no positions, no
trades, no snapshots. -/
def initState (cfg : SimConfig) : SimState :=
  { cash := cfg.initial_capital, positions := [], trades := [], equity := [] }

/-- The sorted union of all dates present across all symbol frames. -/
def allDates (fs : List (ℕ × List SimRow)) : List ℕ :=
  List.insertionSort (· ≤ ·) ((fs.flatMap (fun p => p.2.map (·.date))).dedup)

/-- Mirrors `simulate_trades(df, config)`: prepare the per-symbol frames, walk
the sorted union of dates through exit/entry/valuation, force-close leftover
positions, and return the trade ledger together with the date-sorted equity
curve.  (The source sorts `equity_df` with the pandas default quicksort; the
embedding uses a stable sort — both return an ascending-by-date permutation
of the same snapshots, and no claim depends on the order of equal-date
rows.) -/
def simulate_trades (frames : List (ℕ × List SigRow)) (cfg : SimConfig) :
    List Trade × List EquitySnapshot :=
  let fs := frames.map (fun p => (p.1, prepFrame p.2))
  let stF := forceClose fs cfg (runLoop fs cfg (allDates fs) (initState cfg))
  (stF.trades, List.insertionSort snapLE stF.equity)

/-! ## Concrete runs used by counterexamples and witnesses -/

/-- Configuration with commission enabled at a flat fee of 5e-10 per trade
(half the entry guard's 1e-9 tolerance), everything else plain. -/
def cxCfgCash : SimConfig :=
  ⟨100, 5, 10, 10, true, 1 / 2000000000, 0, false, 0, false, 2, 3, false, 2⟩

/-- One symbol, two dates; a cross-up on date 0 admits an entry at the open of
date 1 whose total cost is 100 + 5e-10 against a cash balance of exactly
100. -/
def cxFramesCash : List (ℕ × List SigRow) :=
  [(0, [⟨0, 10, 10, 10, 10, none, true, false⟩,
        ⟨1, 10, 10, 10, 10, none, false, false⟩])]

/-- C3, counterexample to the claim as stated: the entry guard admits any
total cost up to cash + 1e-9, so with a 5e-10 flat commission the committed
entry debit leaves cash at -5e-10 < 0, recorded in the date-1 equity
snapshot.  Cash does go negative in the date loop for this price data and
configuration. -/
theorem cash_negative_cx :
    ¬ (∀ s ∈ (simulate_trades cxFramesCash cxCfgCash).2, 0 ≤ s.cash) ∧
    (((simulate_trades cxFramesCash cxCfgCash).2.get? 1).map (·.cash)) =
      some (-1 / 2000000000) := by
  have hE : (simulate_trades cxFramesCash cxCfgCash).2 =
      [⟨0, 100, 0, 100⟩,
       ⟨1, -1 / 2000000000, 100, 199999999999 / 2000000000⟩,
       ⟨1, 99999999999 / 1000000000, 0, 99999999999 / 1000000000⟩] := by
    norm_num [simulate_trades, cxFramesCash, cxCfgCash, prepFrame, allDates, runLoop,
      dayStep, exitPhase, exitOne, entryPhase, entryOne, entryCommit, forceClose, forceCloseOne,
      forceCloseDate, initState, eodValue, markClose, markCloseF, apply_slippage,
      commission_cost, stopTake, exitDecision, barsHeld, List.insertionSort,
      List.orderedInsert, sigLE, snapLE, List.lookup, List.eraseP]
  rw [hE]
  constructor
  · intro hall
    have h1 := hall ⟨1, -1 / 2000000000, 100, 199999999999 / 2000000000⟩ (by simp)
    norm_num at h1
  · norm_num [List.get?]

/-- Configuration for the valuation-fallback run: fixed 10-share sizing, wide
stop (5 percent) and effectively unreachable target (10000 percent). -/
def cxCfgMark : SimConfig :=
  ⟨1000, 5, 10000, 10, false, 0, 0, false, 0, false, 2, 3, false, 2⟩

/-- Rows of symbol 0 for the valuation-fallback run: bars on dates 0, 1 and 3
with closes 10, 10 and 99; the cross-up on date 0 admits the entry at the
date-1 open of 10.  Symbol 0 has NO bar on date 2. -/
def cxRowsMark : List SigRow :=
  [⟨0, 10, 10, 10, 10, none, true, false⟩,
   ⟨1, 10, 10, 10, 10, none, false, false⟩,
   ⟨3, 99, 99, 99, 99, none, false, false⟩]

/-- Second symbol trading only on date 2, so date 2 is a simulated date. -/
def cxFramesMark : List (ℕ × List SigRow) :=
  [(0, cxRowsMark), (1, [⟨2, 5, 5, 5, 5, none, false, false⟩])]

/-- Modelled from the spec words for C4 only, for comparison against the
source: "its last known close (the most recent close at or before the current
date)". -/
def lastCloseAsOf (s : List SimRow) (d : ℕ) : ℚ :=
  (((s.filter (fun r => decide (r.date ≤ d))).getLast?).map (·.close)).getD 0

/-- C4, counterexample to the claim as stated: on date 2 the held symbol 0
has no bar, and the source marks the 10-share position with
`s['close'].ffill().iloc[-1]` — the close of the LAST row of the whole frame
(99, a date-3 price), not the most recent close at or before date 2 (10).
The date-2 snapshot records position value 990, not 100. -/
theorem mark_fallback_cx :
    (((simulate_trades cxFramesMark cxCfgMark).2.get? 2).map (·.pos_value)) = some 990 ∧
    (10 : ℚ) * lastCloseAsOf (prepFrame cxRowsMark) 2 = 100 ∧
    (990 : ℚ) ≠ 100 := by
  have hE : (simulate_trades cxFramesMark cxCfgMark).2 =
      [⟨0, 1000, 0, 1000⟩, ⟨1, 900, 100, 1000⟩, ⟨2, 900, 990, 1890⟩,
       ⟨3, 900, 990, 1890⟩, ⟨3, 1890, 0, 1890⟩] := by
    norm_num [simulate_trades, cxFramesMark, cxRowsMark, cxCfgMark, prepFrame, allDates,
      runLoop, dayStep, exitPhase, exitOne, entryPhase, entryOne, entryCommit, forceClose, forceCloseOne,
      forceCloseDate, initState, eodValue, markClose, markCloseF, apply_slippage,
      commission_cost, stopTake, exitDecision, barsHeld, List.insertionSort,
      List.orderedInsert, sigLE, snapLE, List.lookup, List.eraseP]
  rw [hE]
  refine ⟨by norm_num [List.get?], ?_, by norm_num⟩
  norm_num [lastCloseAsOf, cxRowsMark, prepFrame, List.insertionSort, List.orderedInsert,
    sigLE]

/-- Configuration for the signal-exit run: slippage enabled at 10 percent,
stop 90 percent below entry and target 10000 percent above (both out of
reach), fixed 10-share sizing, no commission. -/
def cxCfgSlip : SimConfig :=
  ⟨100000, 90, 10000, 10, false, 0, 0, true, 10, false, 2, 3, false, 2⟩

/-- One symbol: cross-up on date 0 (entry at date 1), cross-down on date 2
(deferred signal exit at the date-3 open of 100), flat prices of 100. -/
def cxFramesSlip : List (ℕ × List SigRow) :=
  [(0, [⟨0, 100, 100, 100, 100, none, true, false⟩,
        ⟨1, 100, 100, 100, 100, none, false, false⟩,
        ⟨2, 100, 100, 100, 100, none, false, true⟩,
        ⟨3, 100, 100, 100, 100, none, false, false⟩])]

/-- C5: evaluation of the code at the failing input.  The single trade of
this run exits by signal at the date-3 open of 100 with 10 percent slippage
enabled, and its recorded exit price is 81 = 100 x (1 - 10/100)^2 — slippage
applied twice (once in the signal-exit branch, once more in the generic
exit block) — whereas a single application would give 90. -/
theorem signal_exit_double_slippage :
    ((simulate_trades cxFramesSlip cxCfgSlip).1.map (fun t => (t.exit_reason, t.exit_price))) =
      [(.signal_exit, 81)] ∧
    (81 : ℚ) = 100 * (1 - 10 / 100) * (1 - 10 / 100) ∧
    (81 : ℚ) ≠ 100 * (1 - 10 / 100) := by
  have hE : (simulate_trades cxFramesSlip cxCfgSlip).1 =
      [{ symbol := 0, entry_date := 1, entry_price := 110, exit_date := 3,
         exit_price := 81, shares := 10, gross_pnl := -290, commissions := 0,
         net_pnl := -290, pnl_pct := -290 / 11, exit_reason := .signal_exit,
         bars_held := 2 }] := by
    norm_num [simulate_trades, cxFramesSlip, cxCfgSlip, prepFrame, allDates, runLoop,
      dayStep, exitPhase, exitOne, entryPhase, entryOne, entryCommit, forceClose, forceCloseOne,
      forceCloseDate, initState, eodValue, markClose, markCloseF, apply_slippage,
      commission_cost, stopTake, exitDecision, barsHeld, List.insertionSort,
      List.orderedInsert, sigLE, snapLE, List.lookup, List.eraseP,
      List.findIdx_cons, List.findIdx_nil]
    all_goals decide
  rw [hE]
  refine ⟨by norm_num, by norm_num, by norm_num⟩

/-- Configuration for the duplicate-snapshot run: plain fixed sizing, no
costs. -/
def cxCfgDup : SimConfig :=
  ⟨100, 5, 10000, 10, false, 0, 0, false, 0, false, 2, 3, false, 2⟩

/-- One symbol, two dates, entry on date 1 and no exit before the loop ends,
so the position is force-closed. -/
def cxFramesDup : List (ℕ × List SigRow) :=
  [(0, [⟨0, 10, 10, 10, 10, none, true, false⟩,
        ⟨1, 10, 10, 10, 10, none, false, false⟩])]

/-- C6, counterexample to the claim as stated: when a position survives the
date loop, the force-close cleanup appends one more snapshot dated at the
last symbol's final date, which the loop has already dated — the returned
equity series has dates [0, 1, 1], so its dates are not pairwise distinct and
it does not contain exactly one snapshot per simulated date. -/
theorem equity_duplicate_date_cx :
    ((simulate_trades cxFramesDup cxCfgDup).2.map (·.date)) = [0, 1, 1] ∧
    ¬ ((simulate_trades cxFramesDup cxCfgDup).2.map (·.date)).Nodup := by
  have hE : ((simulate_trades cxFramesDup cxCfgDup).2.map (·.date)) = [0, 1, 1] := by
    norm_num [simulate_trades, cxFramesDup, cxCfgDup, prepFrame, allDates, runLoop,
      dayStep, exitPhase, exitOne, entryPhase, entryOne, entryCommit, forceClose, forceCloseOne,
      forceCloseDate, initState, eodValue, markClose, markCloseF, apply_slippage,
      commission_cost, stopTake, exitDecision, barsHeld, List.insertionSort,
      List.orderedInsert, sigLE, snapLE, List.lookup, List.eraseP]
  rw [hE]
  exact ⟨rfl, by decide⟩

/-- C2: whenever a held symbol's bar satisfies both the stop trigger
(low ≤ stop price) and the target trigger (high ≥ target price), the exit
phase records exactly one trade, with reason stop_loss (never take_profit) at
the stop price (slippage-adjusted when slippage is enabled), and removes the
position; and the exit decision is taken in the fixed order stop_loss, then
take_profit, then signal_exit, first match winning, so at most one exit
reason arises per symbol per day. -/
theorem exit_tiebreak (fs : List (ℕ × List SimRow)) (cfg : SimConfig) (d : ℕ)
    (st : SimState) (sym : ℕ) (pos : Position) (s : List SimRow) (row : SimRow)
    (hpos : st.positions.lookup sym = some pos)
    (hfs : fs.lookup sym = some s)
    (hrow : s.find? (fun r => r.date == d) = some row)
    (hlow : row.low ≤ (stopTake cfg pos row).1)
    (hhigh : (stopTake cfg pos row).2 ≤ row.high) :
    ((exitOne fs cfg d st sym).trades.length = st.trades.length + 1 ∧
     ((exitOne fs cfg d st sym).trades.getLast?).map (fun t => (t.exit_reason, t.exit_price)) =
       some (.stop_loss,
         if cfg.enable_slippage = true then
           apply_slippage (stopTake cfg pos row).1 false cfg
         else (stopTake cfg pos row).1) ∧
     (exitOne fs cfg d st sym).positions = st.positions.eraseP (fun q => sym == q.1)) ∧
    (∀ (r : SimRow) (stp tk : ℚ),
      (r.low ≤ stp → exitDecision cfg r stp tk = some (stp, .stop_loss)) ∧
      (¬ r.low ≤ stp → tk ≤ r.high → exitDecision cfg r stp tk = some (tk, .take_profit)) ∧
      (¬ r.low ≤ stp → ¬ tk ≤ r.high → r.exit_on = true →
        exitDecision cfg r stp tk =
          some (apply_slippage r.open_p false cfg, .signal_exit)) ∧
      (¬ r.low ≤ stp → ¬ tk ≤ r.high → r.exit_on ≠ true →
        exitDecision cfg r stp tk = none)) := by
  constructor
  · have hdec : exitDecision cfg row (stopTake cfg pos row).1 (stopTake cfg pos row).2 =
        some ((stopTake cfg pos row).1, .stop_loss) := by
      simp [exitDecision, hlow]
    simp only [exitOne, hpos, hfs, hrow, hdec]
    refine ⟨?_, ?_, ?_⟩ <;> simp [List.getLast?_concat]
  · intro r stp tk
    refine ⟨fun h1 => by simp [exitDecision, h1], fun h1 h2 => by simp [exitDecision, h1, h2],
      fun h1 h2 h3 => by simp [exitDecision, h1, h2, h3],
      fun h1 h2 h3 => by simp [exitDecision, h1, h2, h3]⟩

/-- Witness for C2 at a concrete input: entry at 100, fixed 5 percent stop
(95) and 10 percent target (110), with a bar spanning low 90 to high 120 that
triggers both. -/
theorem exit_tiebreak_witness :
    (([(0, (⟨100, 10, 0, 0⟩ : Position))] : List (ℕ × Position)).lookup 0 =
      some ⟨100, 10, 0, 0⟩) ∧
    (([(0, [(⟨1, 100, 120, 90, 100, none, false, false⟩ : SimRow)])] :
        List (ℕ × List SimRow)).lookup 0 = some [⟨1, 100, 120, 90, 100, none, false, false⟩]) ∧
    ([(⟨1, 100, 120, 90, 100, none, false, false⟩ : SimRow)].find? (fun r => r.date == 1) =
      some ⟨1, 100, 120, 90, 100, none, false, false⟩) ∧
    ((⟨1, 100, 120, 90, 100, none, false, false⟩ : SimRow).low ≤
      (stopTake ⟨100000, 5, 10, 100, false, 0, 0, false, 0, false, 2, 3, false, 2⟩
        ⟨100, 10, 0, 0⟩ ⟨1, 100, 120, 90, 100, none, false, false⟩).1) ∧
    ((stopTake ⟨100000, 5, 10, 100, false, 0, 0, false, 0, false, 2, 3, false, 2⟩
        ⟨100, 10, 0, 0⟩ ⟨1, 100, 120, 90, 100, none, false, false⟩).2 ≤
      (⟨1, 100, 120, 90, 100, none, false, false⟩ : SimRow).high) ∧
    (((exitOne [(0, [⟨1, 100, 120, 90, 100, none, false, false⟩])]
        ⟨100000, 5, 10, 100, false, 0, 0, false, 0, false, 2, 3, false, 2⟩ 1
        ⟨100000, [(0, ⟨100, 10, 0, 0⟩)], [], []⟩ 0).trades.getLast?).map
          (fun t => (t.exit_reason, t.exit_price))) =
      some (.stop_loss,
        if (⟨100000, 5, 10, 100, false, 0, 0, false, 0, false, 2, 3, false, 2⟩ :
            SimConfig).enable_slippage = true then
          apply_slippage (stopTake ⟨100000, 5, 10, 100, false, 0, 0, false, 0, false, 2, 3, false, 2⟩
            ⟨100, 10, 0, 0⟩ ⟨1, 100, 120, 90, 100, none, false, false⟩).1 false
            ⟨100000, 5, 10, 100, false, 0, 0, false, 0, false, 2, 3, false, 2⟩
        else (stopTake ⟨100000, 5, 10, 100, false, 0, 0, false, 0, false, 2, 3, false, 2⟩
          ⟨100, 10, 0, 0⟩ ⟨1, 100, 120, 90, 100, none, false, false⟩).1) := by
  have hlow : (⟨1, 100, 120, 90, 100, none, false, false⟩ : SimRow).low ≤
      (stopTake ⟨100000, 5, 10, 100, false, 0, 0, false, 0, false, 2, 3, false, 2⟩
        ⟨100, 10, 0, 0⟩ ⟨1, 100, 120, 90, 100, none, false, false⟩).1 := by
    norm_num [stopTake]
  have hhigh : (stopTake ⟨100000, 5, 10, 100, false, 0, 0, false, 0, false, 2, 3, false, 2⟩
        ⟨100, 10, 0, 0⟩ ⟨1, 100, 120, 90, 100, none, false, false⟩).2 ≤
      (⟨1, 100, 120, 90, 100, none, false, false⟩ : SimRow).high := by
    norm_num [stopTake]
  exact ⟨rfl, rfl, rfl, hlow, hhigh,
    ((exit_tiebreak [(0, [⟨1, 100, 120, 90, 100, none, false, false⟩])]
      ⟨100000, 5, 10, 100, false, 0, 0, false, 0, false, 2, 3, false, 2⟩ 1
      ⟨100000, [(0, ⟨100, 10, 0, 0⟩)], [], []⟩ 0 ⟨100, 10, 0, 0⟩
      [⟨1, 100, 120, 90, 100, none, false, false⟩] ⟨1, 100, 120, 90, 100, none, false, false⟩
      rfl rfl rfl hlow hhigh).1).2.1⟩

/-- C7: with risk sizing enabled, for a symbol admitted to enter (bar today,
deferred cross-up, no open position), the desired share count is the fixed
configured size when the per-share risk is nonpositive and otherwise
max(1, floor(risk_amount / per_share_risk)) with risk_amount = cash x
risk_per_trade_pct / 100 and per_share_risk the ATR stop distance
(atr_multiplier_sl x the bar's ATR) when ATR-stop is enabled and the ATR is
defined, else entry_price x stop_loss_pct / 100; the committed share count is
min(desired, affordable cap from current cash); an affordable cap of 0 skips
the entry entirely, as does any non-positive share count or a total cost
beyond cash plus the guard tolerance. -/
theorem risk_sizing_entry (cfg : SimConfig) (d : ℕ) (st : SimState)
    (f : ℕ × List SimRow) (row : SimRow)
    (hrisk : cfg.enable_risk_sizing = true)
    (hrow : f.2.find? (fun r => r.date == d) = some row)
    (hon : row.entry_on = true)
    (hfree : st.positions.lookup f.1 = none) :
    let entry_price := apply_slippage row.open_p true cfg
    let per_share_risk : ℚ :=
      match (if cfg.enable_atr_stop = true then row.atr else none) with
      | some a => cfg.atr_multiplier_sl * a
      | none => entry_price * (cfg.stop_loss_pct / 100)
    let risk_amount := st.cash * (cfg.risk_per_trade_pct / 100)
    let desired : ℤ := if per_share_risk ≤ 0 then cfg.position_size
      else max 1 ⌊risk_amount / per_share_risk⌋
    let afford : ℤ := ⌊st.cash / (if 0 < entry_price then entry_price else 1 / 1000000000)⌋
    let shares := min desired afford
    (afford = 0 → entryOne cfg d st f = st) ∧
    (shares ≤ 0 → entryOne cfg d st f = st) ∧
    (0 < shares →
      st.cash + 1 / 1000000000 < entry_price * (shares : ℚ) + commission_cost entry_price shares cfg →
      entryOne cfg d st f = st) ∧
    (0 < shares →
      ¬ st.cash + 1 / 1000000000 < entry_price * (shares : ℚ) + commission_cost entry_price shares cfg →
      entryOne cfg d st f =
        { cash := st.cash - (entry_price * (shares : ℚ) + commission_cost entry_price shares cfg)
          positions := st.positions ++
            [(f.1, { entry_price := entry_price, shares := shares, entry_date := d,
                     entry_comm := commission_cost entry_price shares cfg })]
          trades := st.trades
          equity := st.equity }) := by
  intro entry_price per_share_risk risk_amount desired afford shares
  have hne : ¬ row.entry_on ≠ true := by simp [hon]
  have hsome : (st.positions.lookup f.1).isSome = false := by simp [hfree]
  refine ⟨?_, ?_, ?_, ?_⟩
  · intro h0
    have hsh : shares ≤ 0 := by
      have := min_le_right desired afford
      omega
    simp only [entryOne, entryCommit, hrow, hne, if_false, hsome, Bool.false_eq_true,
      hrisk, if_true]
    rw [if_pos hsh]
  · intro hsh
    simp only [entryOne, entryCommit, hrow, hne, if_false, hsome, Bool.false_eq_true,
      hrisk, if_true]
    rw [if_pos hsh]
  · intro hsh hcost
    have hns : ¬ shares ≤ 0 := by omega
    simp only [entryOne, entryCommit, hrow, hne, if_false, hsome, Bool.false_eq_true,
      hrisk, if_true]
    rw [if_neg hns, if_pos hcost]
  · intro hsh hcost
    have hns : ¬ shares ≤ 0 := by omega
    simp only [entryOne, entryCommit, hrow, hne, if_false, hsome, Bool.false_eq_true,
      hrisk, if_true]
    rw [if_neg hns, if_neg hcost]

/-- Witness for C7 at the configuration of the spec scenario: cash 100000,
risk 2 percent (risk amount 2000), fixed 5 percent stop, entry open 100, so
per-share risk 5, desired floor(2000/5) = 400, affordable 1000, committed
min(400, 1000) = 400. -/
theorem risk_sizing_entry_witness :
    ((⟨100000, 5, 10, 100, false, 0, 0, false, 0, false, 2, 3, true, 2⟩ :
        SimConfig).enable_risk_sizing = true) ∧
    (([(⟨1, 100, 100, 100, 100, none, true, false⟩ : SimRow)].find?
        (fun r => r.date == 1)) = some ⟨1, 100, 100, 100, 100, none, true, false⟩) ∧
    ((⟨1, 100, 100, 100, 100, none, true, false⟩ : SimRow).entry_on = true) ∧
    ((([] : List (ℕ × Position)).lookup 0) = none) ∧
    (entryOne ⟨100000, 5, 10, 100, false, 0, 0, false, 0, false, 2, 3, true, 2⟩ 1
        ⟨100000, [], [], []⟩ (0, [⟨1, 100, 100, 100, 100, none, true, false⟩]) =
      { cash := 100000 - 40000
        positions := [(0, { entry_price := 100, shares := 400, entry_date := 1,
                            entry_comm := 0 })]
        trades := []
        equity := [] }) := by
  refine ⟨rfl, rfl, rfl, rfl, ?_⟩
  have h := (risk_sizing_entry
    ⟨100000, 5, 10, 100, false, 0, 0, false, 0, false, 2, 3, true, 2⟩ 1
    ⟨100000, [], [], []⟩ (0, [⟨1, 100, 100, 100, 100, none, true, false⟩])
    ⟨1, 100, 100, 100, 100, none, true, false⟩ rfl rfl rfl rfl).2.2.2
  have e1 : apply_slippage (100 : ℚ) true
      ⟨100000, 5, 10, 100, false, 0, 0, false, 0, false, 2, 3, true, 2⟩ = 100 := by
    norm_num [apply_slippage]
  rw [show (entryOne ⟨100000, 5, 10, 100, false, 0, 0, false, 0, false, 2, 3, true, 2⟩ 1
      ⟨100000, [], [], []⟩ (0, [⟨1, 100, 100, 100, 100, none, true, false⟩])) =
    { cash := 100000 - 40000
      positions := [(0, { entry_price := 100, shares := 400, entry_date := 1,
                          entry_comm := 0 })]
      trades := []
      equity := [] } by
    norm_num [entryOne, entryCommit, apply_slippage, commission_cost]]

/-! ## Bookkeeping invariants of the simulator -/

/-- Capital locked in an open position: entry notional plus entry
commission — exactly the amount debited from cash when the position was
opened. -/
def posCost (q : ℕ × Position) : ℚ :=
  q.2.entry_price * (q.2.shares : ℚ) + q.2.entry_comm

/-- The conservation identity: cash equals initial capital plus realized net
pnl of the ledger so far minus the capital locked in open positions. -/
def Conserved (cfg : SimConfig) (st : SimState) : Prop :=
  st.cash = cfg.initial_capital + (st.trades.map (·.net_pnl)).sum -
    ((st.positions.map posCost).sum)

theorem sum_eraseP_lookup (f : ℕ × Position → ℚ) :
    ∀ (l : List (ℕ × Position)) (sym : ℕ) (pos : Position),
      l.lookup sym = some pos →
      (l.map f).sum = f (sym, pos) + (((l.eraseP (fun q => sym == q.1)).map f).sum)
  | [], _, _, h => by simp [List.lookup] at h
  | (k, v) :: tl, sym, pos, h => by
    by_cases hk : (sym == k) = true
    · have hk2 : sym = k := eq_of_beq hk
      have hv : v = pos := by
        simpa [List.lookup, hk] using h
      subst hk2; subst hv
      simp [List.eraseP_cons_of_pos, hk]
    · have hl : tl.lookup sym = some pos := by
        simpa [List.lookup, hk] using h
      have ih := sum_eraseP_lookup f tl sym pos hl
      have hk3 : (fun q => sym == q.1) (k, v) = false := by simpa using hk
      simp [List.eraseP_cons_of_neg, hk3, ih]
      ring

theorem foldl_preserve {α : Type} (g : SimState → α → SimState)
    (P : SimState → Prop) (hg : ∀ st a, P st → P (g st a)) :
    ∀ (l : List α) (st : SimState), P st → P (l.foldl g st)
  | [], _, h => h
  | a :: l, st, h => foldl_preserve g P hg l (g st a) (hg st a h)

theorem exitOne_conserved (fs : List (ℕ × List SimRow)) (cfg : SimConfig)
    (d : ℕ) (st : SimState) (sym : ℕ) (h : Conserved cfg st) :
    Conserved cfg (exitOne fs cfg d st sym) := by
  unfold Conserved at h ⊢
  unfold exitOne
  split
  · exact h
  next pos hl =>
    split
    · exact h
    next s hs =>
      split
      · exact h
      next row hr =>
        dsimp only
        split
        · exact h
        next pr hdec =>
          have hsum := sum_eraseP_lookup posCost st.positions sym pos hl
          simp only [List.map_append, List.sum_append, List.map_cons, List.map_nil,
            List.sum_cons, List.sum_nil]
          rw [h]
          have : ((st.positions.eraseP (fun q => sym == q.1)).map posCost).sum =
              (st.positions.map posCost).sum - posCost (sym, pos) := by
            rw [hsum]; ring
          rw [this]
          simp only [posCost]
          ring

theorem entryCommit_conserved (cfg : SimConfig) (d : ℕ) (st : SimState)
    (sym : ℕ) (entry_price : ℚ) (shares : ℤ) (h : Conserved cfg st) :
    Conserved cfg (entryCommit cfg d st sym entry_price shares) := by
  unfold Conserved at h ⊢
  unfold entryCommit
  split
  · exact h
  · dsimp only
    split
    · exact h
    · simp only [List.map_append, List.sum_append, List.map_cons, List.map_nil,
        List.sum_cons, List.sum_nil]
      rw [h]
      simp only [posCost]
      ring

theorem entryOne_conserved (cfg : SimConfig) (d : ℕ) (st : SimState)
    (f : ℕ × List SimRow) (h : Conserved cfg st) :
    Conserved cfg (entryOne cfg d st f) := by
  unfold entryOne
  split
  · exact h
  next row hr =>
    split
    · exact h
    · split
      · exact h
      · exact entryCommit_conserved cfg d st f.1 _ _ h

theorem dayStep_conserved (fs : List (ℕ × List SimRow)) (cfg : SimConfig)
    (st : SimState) (d : ℕ) (h : Conserved cfg st) :
    Conserved cfg (dayStep fs cfg st d) := by
  have h1 : Conserved cfg (exitPhase fs cfg d st) :=
    foldl_preserve (exitOne fs cfg d) (Conserved cfg)
      (fun st2 sym => exitOne_conserved fs cfg d st2 sym) _ st h
  have h2 : Conserved cfg (entryPhase fs cfg d (exitPhase fs cfg d st)) :=
    foldl_preserve (fun st2 f => entryOne cfg d st2 f) (Conserved cfg)
      (fun st2 f => entryOne_conserved cfg d st2 f) _ _ h1
  unfold Conserved at h2 ⊢
  simpa [dayStep] using h2

theorem runLoop_conserved (fs : List (ℕ × List SimRow)) (cfg : SimConfig)
    (dates : List ℕ) (st : SimState) (h : Conserved cfg st) :
    Conserved cfg (runLoop fs cfg dates st) :=
  foldl_preserve (dayStep fs cfg) (Conserved cfg)
    (fun st2 d => dayStep_conserved fs cfg st2 d) dates st h

theorem initState_conserved (cfg : SimConfig) : Conserved cfg (initState cfg) := by
  simp [Conserved, initState]

theorem sum_map_sub (f g : ℕ × Position → ℚ) (l : List (ℕ × Position)) :
    (l.map (fun x => f x - g x)).sum = (l.map f).sum - (l.map g).sum := by
  induction l with
  | nil => simp
  | cons x xs ih => simp [ih]; ring

/-- Reachability invariant of the date loop: the positions dict has duplicate
free keys (a symbol never holds two simultaneous positions) and every held
symbol has a nonempty frame in the frames dict. -/
def StInv (fs : List (ℕ × List SimRow)) (st : SimState) : Prop :=
  ((st.positions.map (·.1)).Nodup) ∧
  ∀ q ∈ st.positions, ∃ s, fs.lookup q.1 = some s ∧ s ≠ []

theorem lookup_eq_none_not_mem {β : Type} :
    ∀ (l : List (ℕ × β)) (a : ℕ), l.lookup a = none → a ∉ l.map (·.1)
  | [], a, _ => by simp
  | x :: xs, a, h => by
    by_cases hx : (a == x.1) = true
    · simp [List.lookup, hx] at h
    · have h2 : xs.lookup a = none := by simpa [List.lookup, hx] using h
      have ih := lookup_eq_none_not_mem xs a h2
      have : a ≠ x.1 := by simpa using hx
      simp [this, ih]

theorem lookup_of_mem_nodup {β : Type} :
    ∀ (l : List (ℕ × β)) (f : ℕ × β), (l.map (·.1)).Nodup → f ∈ l →
      l.lookup f.1 = some f.2
  | [], f, _, hm => by cases hm
  | x :: xs, f, hn, hm => by
    rcases List.mem_cons.mp hm with he | ht
    · subst he
      simp [List.lookup]
    · have hx1 : f.1 ∈ xs.map (·.1) := List.mem_map_of_mem _ ht
      have hne : ¬ (f.1 == x.1) = true := by
        intro hb
        have : f.1 = x.1 := eq_of_beq hb
        rw [List.map_cons, List.nodup_cons] at hn
        exact hn.1 (this ▸ hx1)
      have ih := lookup_of_mem_nodup xs f (by
        rw [List.map_cons, List.nodup_cons] at hn; exact hn.2) ht
      simpa [List.lookup, hne] using ih

theorem exitOne_stinv (fs : List (ℕ × List SimRow)) (cfg : SimConfig)
    (d : ℕ) (st : SimState) (sym : ℕ) (h : StInv fs st) :
    StInv fs (exitOne fs cfg d st sym) := by
  unfold exitOne
  split
  · exact h
  · split
    · exact h
    · split
      · exact h
      · dsimp only
        split
        · exact h
        · constructor
          · exact ((List.eraseP_sublist st.positions).map (·.1)).nodup h.1
          · intro q hq
            exact h.2 q ((List.eraseP_sublist st.positions).subset hq)

theorem entryCommit_stinv (fs : List (ℕ × List SimRow)) (cfg : SimConfig)
    (d : ℕ) (st : SimState) (sym : ℕ) (ep : ℚ) (sh : ℤ)
    (hnone : st.positions.lookup sym = none)
    (hframe : ∃ s, fs.lookup sym = some s ∧ s ≠ [])
    (h : StInv fs st) : StInv fs (entryCommit cfg d st sym ep sh) := by
  unfold entryCommit
  split
  · exact h
  · dsimp only
    split
    · exact h
    · have hnm : sym ∉ st.positions.map (·.1) :=
        lookup_eq_none_not_mem st.positions sym hnone
      constructor
      · simp only [List.map_append, List.map_cons, List.map_nil]
        rw [List.nodup_append]
        exact ⟨h.1, List.nodup_singleton _, by simpa using hnm⟩
      · intro q hq
        rcases List.mem_append.mp hq with hq1 | hq2
        · exact h.2 q hq1
        · have hq3 : q.1 = sym := by
            have := List.mem_singleton.mp hq2
            rw [this]
          rw [hq3]
          exact hframe

theorem entryOne_stinv (fs : List (ℕ × List SimRow)) (cfg : SimConfig)
    (d : ℕ) (st : SimState) (f : ℕ × List SimRow)
    (hfs : (fs.map (·.1)).Nodup) (hmem : f ∈ fs) (h : StInv fs st) :
    StInv fs (entryOne cfg d st f) := by
  unfold entryOne
  split
  · exact h
  next row hr =>
    split
    · exact h
    · split
      · exact h
      · rename_i hfree
        dsimp only
        have hnone : st.positions.lookup f.1 = none :=
          Option.not_isSome_iff_eq_none.mp hfree
        have hlook : fs.lookup f.1 = some f.2 := lookup_of_mem_nodup fs f hfs hmem
        have hne2 : f.2 ≠ [] :=
          List.ne_nil_of_mem (List.mem_of_find?_eq_some hr)
        exact entryCommit_stinv fs cfg d st f.1 _ _ hnone ⟨f.2, hlook, hne2⟩ h

theorem exitPhase_stinv (fs : List (ℕ × List SimRow)) (cfg : SimConfig)
    (d : ℕ) (st : SimState) (h : StInv fs st) :
    StInv fs (exitPhase fs cfg d st) :=
  foldl_preserve (exitOne fs cfg d) (StInv fs)
    (fun st2 sym => exitOne_stinv fs cfg d st2 sym) _ st h

theorem entryPhase_stinv_aux (fs : List (ℕ × List SimRow)) (cfg : SimConfig)
    (d : ℕ) (hfs : (fs.map (·.1)).Nodup) :
    ∀ (gs : List (ℕ × List SimRow)) (st : SimState), (∀ g ∈ gs, g ∈ fs) →
      StInv fs st → StInv fs (gs.foldl (entryOne cfg d) st)
  | [], _, _, h => h
  | g :: gs, st, hsub, h =>
    entryPhase_stinv_aux fs cfg d hfs gs (entryOne cfg d st g)
      (fun x hx => hsub x (List.mem_cons_of_mem g hx))
      (entryOne_stinv fs cfg d st g hfs (hsub g (List.mem_cons_self g gs)) h)

theorem entryPhase_stinv (fs : List (ℕ × List SimRow)) (cfg : SimConfig)
    (d : ℕ) (st : SimState) (hfs : (fs.map (·.1)).Nodup) (h : StInv fs st) :
    StInv fs (entryPhase fs cfg d st) :=
  entryPhase_stinv_aux fs cfg d hfs fs st (fun _ hx => hx) h

theorem dayStep_stinv (fs : List (ℕ × List SimRow)) (cfg : SimConfig)
    (st : SimState) (d : ℕ) (hfs : (fs.map (·.1)).Nodup) (h : StInv fs st) :
    StInv fs (dayStep fs cfg st d) := by
  have h2 := entryPhase_stinv fs cfg d (exitPhase fs cfg d st) hfs
    (exitPhase_stinv fs cfg d st h)
  unfold StInv at h2 ⊢
  simpa [dayStep] using h2

theorem runLoop_stinv (fs : List (ℕ × List SimRow)) (cfg : SimConfig)
    (dates : List ℕ) (st : SimState) (hfs : (fs.map (·.1)).Nodup)
    (h : StInv fs st) : StInv fs (runLoop fs cfg dates st) :=
  foldl_preserve (dayStep fs cfg) (StInv fs)
    (fun st2 d2 => dayStep_stinv fs cfg st2 d2 hfs) dates st h

theorem initState_stinv (fs : List (ℕ × List SimRow)) (cfg : SimConfig) :
    StInv fs (initState cfg) := by
  constructor <;> simp [initState]

theorem forceCloseFold_spec (fs : List (ℕ × List SimRow)) (cfg : SimConfig) :
    ∀ (ps : List (ℕ × Position)) (st : SimState),
      st.positions = ps → ((ps.map (·.1)).Nodup) →
      (∀ q ∈ ps, ∃ s, fs.lookup q.1 = some s ∧ s ≠ []) →
      Conserved cfg st →
      Conserved cfg (ps.foldl (forceCloseOne fs cfg) st) ∧
      (ps.foldl (forceCloseOne fs cfg) st).positions = [] ∧
      ∃ ts, (ps.foldl (forceCloseOne fs cfg) st).trades = st.trades ++ ts ∧
        ts.length = ps.length ∧ ∀ t ∈ ts, t.exit_reason = .eod_force_close
  | [], st, hps, _, _, hc => by
    refine ⟨hc, ?_, [], by simp, by simp, by simp⟩
    simpa using hps
  | q :: rest, st, hps, hnd, hfr, hc => by
    obtain ⟨s, hlook, hne⟩ := hfr q (List.mem_cons_self q rest)
    obtain ⟨lastRow, hlast⟩ : ∃ r, s.getLast? = some r := by
      cases hsl : s.getLast? with
      | none => exact absurd (List.getLast?_eq_none_iff.mp hsl) hne
      | some r => exact ⟨r, rfl⟩
    have hps2 : (forceCloseOne fs cfg st q).positions = rest := by
      simp only [forceCloseOne, hlook, hlast]
      rw [hps]
      simp [List.eraseP_cons_of_pos]
    have hcons2 : Conserved cfg (forceCloseOne fs cfg st q) := by
      unfold Conserved at hc ⊢
      simp only [forceCloseOne, hlook, hlast]
      simp only [List.map_append, List.sum_append, List.map_cons, List.map_nil,
        List.sum_cons, List.sum_nil]
      rw [hc, hps]
      have he : List.eraseP (fun p => q.1 == p.1) (q :: rest) = rest := by
        simp [List.eraseP_cons_of_pos]
      rw [he]
      simp only [List.map_cons, List.sum_cons, posCost]
      ring
    obtain ⟨t1, htr⟩ : ∃ t1, (forceCloseOne fs cfg st q).trades = st.trades ++ [t1] ∧
        t1.exit_reason = .eod_force_close := by
      simp only [forceCloseOne, hlook, hlast]
      exact ⟨_, rfl, rfl⟩
    have ih := forceCloseFold_spec fs cfg rest (forceCloseOne fs cfg st q) hps2
      (by rw [List.map_cons, List.nodup_cons] at hnd; exact hnd.2)
      (fun x hx => hfr x (List.mem_cons_of_mem q hx)) hcons2
    rw [List.foldl_cons]
    obtain ⟨ihc, ihp, ts, ihtr, ihlen, ihall⟩ := ih
    refine ⟨ihc, ihp, t1 :: ts, ?_, by simp [ihlen], ?_⟩
    · rw [ihtr, htr.1]
      simp
    · intro t ht
      rcases List.mem_cons.mp ht with he | hm
      · rw [he]; exact htr.2
      · exact ihall t hm

theorem conserved_equity_irrelevant (cfg : SimConfig) (st : SimState)
    (e : List EquitySnapshot) (h : Conserved cfg st) :
    Conserved cfg { st with equity := e } := h

theorem forceClose_spec (fs : List (ℕ × List SimRow)) (cfg : SimConfig)
    (st : SimState) (h1 : StInv fs st) (hc : Conserved cfg st) :
    Conserved cfg (forceClose fs cfg st) ∧
    (forceClose fs cfg st).positions = [] ∧
    ∃ ts, (forceClose fs cfg st).trades = st.trades ++ ts ∧
      ts.length = st.positions.length ∧
      ∀ t ∈ ts, t.exit_reason = .eod_force_close := by
  unfold forceClose
  split
  next heq =>
    exact ⟨hc, heq, [], by simp, by simp [heq], by simp⟩
  next x xs heq =>
    have spec := forceCloseFold_spec fs cfg st.positions st rfl h1.1 h1.2 hc
    obtain ⟨sc, sp, ts, str, slen, sall⟩ := spec
    dsimp only
    refine ⟨conserved_equity_irrelevant cfg _ _ sc, by simpa using sp,
      ts, by simpa using str, slen, sall⟩

/-- C1: capital conservation.  After any prefix of simulated dates followed
by one more date d, the end-of-day snapshot appended on d records cash plus
the marked value of the open positions, and that total equals the initial
capital, plus the cumulative realized net pnl of every trade closed so far,
plus the unrealized mark-to-market delta (mark minus entry price, times
shares) of each open position, minus the entry commissions already paid on
the still-open positions; moreover after the force-close cleanup (where no
positions remain) final cash is exactly the initial capital plus cumulative
realized net pnl, so no capital appears or disappears outside realized and
unrealized pnl and transaction costs. -/
theorem capital_conservation (frames : List (ℕ × List SigRow)) (cfg : SimConfig)
    (ds : List ℕ) (d : ℕ) (hsym : (frames.map (·.1)).Nodup) :
    let fs := frames.map (fun p => (p.1, prepFrame p.2))
    let st2 := entryPhase fs cfg d (exitPhase fs cfg d (runLoop fs cfg ds (initState cfg)))
    ((runLoop fs cfg (ds ++ [d]) (initState cfg)).equity =
      st2.equity ++ [{ date := d, cash := st2.cash,
                       pos_value := eodValue fs d st2.positions,
                       equity := st2.cash + eodValue fs d st2.positions }]) ∧
    (st2.cash + eodValue fs d st2.positions =
      cfg.initial_capital + (st2.trades.map (·.net_pnl)).sum +
        ((st2.positions.map (fun q =>
          (q.2.shares : ℚ) * (markCloseF fs q.1 d - q.2.entry_price) -
            q.2.entry_comm)).sum)) ∧
    ((forceClose fs cfg (runLoop fs cfg ds (initState cfg))).cash =
      cfg.initial_capital +
        (((forceClose fs cfg (runLoop fs cfg ds (initState cfg))).trades.map
          (·.net_pnl)).sum)) := by
  intro fs st2
  have hkeys : (fs.map (·.1)).Nodup := by
    have heq : fs.map (·.1) = frames.map (·.1) := by
      show (frames.map (fun p => (p.1, prepFrame p.2))).map (·.1) = frames.map (·.1)
      rw [List.map_map]
      rfl
    rw [heq]; exact hsym
  have hstL : Conserved cfg (runLoop fs cfg ds (initState cfg)) :=
    runLoop_conserved fs cfg ds _ (initState_conserved cfg)
  have hst2 : Conserved cfg st2 := by
    show Conserved cfg (entryPhase fs cfg d (exitPhase fs cfg d
      (runLoop fs cfg ds (initState cfg))))
    unfold entryPhase exitPhase
    exact foldl_preserve _ _ (fun s f => entryOne_conserved cfg d s f) _ _
      (foldl_preserve _ _ (fun s a => exitOne_conserved fs cfg d s a) _ _ hstL)
  refine ⟨?_, ?_, ?_⟩
  · rw [runLoop, List.foldl_append]
    rfl
  · unfold Conserved at hst2
    rw [hst2]
    have hsplit : ((st2.positions.map (fun q =>
        (q.2.shares : ℚ) * (markCloseF fs q.1 d - q.2.entry_price) -
          q.2.entry_comm)).sum) =
        ((st2.positions.map (fun q => (q.2.shares : ℚ) * markCloseF fs q.1 d)).sum) -
          ((st2.positions.map posCost).sum) := by
      rw [← sum_map_sub]
      congr 1
      congr 1
      funext q
      simp only [posCost]
      ring
    rw [hsplit]
    unfold eodValue
    ring
  · obtain ⟨sc, sp, -⟩ := forceClose_spec fs cfg (runLoop fs cfg ds (initState cfg))
      (runLoop_stinv fs cfg ds _ hkeys (initState_stinv fs cfg)) hstL
    unfold Conserved at sc
    rw [sc, sp]
    simp

/-- Witness for C1 at a concrete input: one symbol, one date, no signals. -/
theorem capital_conservation_witness :
    ((([(0, [⟨0, 10, 10, 10, 10, none, false, false⟩])] :
        List (ℕ × List SigRow)).map (·.1)).Nodup) ∧
    (let fs := ([(0, [⟨0, 10, 10, 10, 10, none, false, false⟩])] :
        List (ℕ × List SigRow)).map (fun p => (p.1, prepFrame p.2))
     let cfg : SimConfig := ⟨100000, 5, 10, 100, false, 0, 0, false, 0, false, 2, 3, false, 2⟩
     let st2 := entryPhase fs cfg 0 (exitPhase fs cfg 0 (runLoop fs cfg [] (initState cfg)))
     ((runLoop fs cfg ([] ++ [0]) (initState cfg)).equity =
       st2.equity ++ [{ date := 0, cash := st2.cash,
                        pos_value := eodValue fs 0 st2.positions,
                        equity := st2.cash + eodValue fs 0 st2.positions }]) ∧
     (st2.cash + eodValue fs 0 st2.positions =
       cfg.initial_capital + (st2.trades.map (·.net_pnl)).sum +
         ((st2.positions.map (fun q =>
           (q.2.shares : ℚ) * (markCloseF fs q.1 0 - q.2.entry_price) -
             q.2.entry_comm)).sum)) ∧
     ((forceClose fs cfg (runLoop fs cfg [] (initState cfg))).cash =
       cfg.initial_capital +
         (((forceClose fs cfg (runLoop fs cfg [] (initState cfg))).trades.map
           (·.net_pnl)).sum))) :=
  ⟨by simp, capital_conservation [(0, [⟨0, 10, 10, 10, 10, none, false, false⟩])]
    ⟨100000, 5, 10, 100, false, 0, 0, false, 0, false, 2, 3, false, 2⟩ [] 0 (by simp)⟩

theorem exitOne_equity (fs : List (ℕ × List SimRow)) (cfg : SimConfig)
    (d : ℕ) (st : SimState) (sym : ℕ) :
    (exitOne fs cfg d st sym).equity = st.equity := by
  unfold exitOne
  split
  · rfl
  · split
    · rfl
    · split
      · rfl
      · dsimp only
        split
        · rfl
        · rfl

theorem entryCommit_equity (cfg : SimConfig) (d : ℕ) (st : SimState)
    (sym : ℕ) (ep : ℚ) (sh : ℤ) :
    (entryCommit cfg d st sym ep sh).equity = st.equity := by
  unfold entryCommit
  split
  · rfl
  · dsimp only
    split
    · rfl
    · rfl

theorem entryCommit_trades (cfg : SimConfig) (d : ℕ) (st : SimState)
    (sym : ℕ) (ep : ℚ) (sh : ℤ) :
    (entryCommit cfg d st sym ep sh).trades = st.trades := by
  unfold entryCommit
  split
  · rfl
  · dsimp only
    split
    · rfl
    · rfl

theorem entryOne_equity (cfg : SimConfig) (d : ℕ) (st : SimState)
    (f : ℕ × List SimRow) : (entryOne cfg d st f).equity = st.equity := by
  unfold entryOne
  split
  · rfl
  · split
    · rfl
    · split
      · rfl
      · dsimp only
        exact entryCommit_equity cfg d st f.1 _ _

theorem entryOne_trades (cfg : SimConfig) (d : ℕ) (st : SimState)
    (f : ℕ × List SimRow) : (entryOne cfg d st f).trades = st.trades := by
  unfold entryOne
  split
  · rfl
  · split
    · rfl
    · split
      · rfl
      · dsimp only
        exact entryCommit_trades cfg d st f.1 _ _

theorem forceCloseOne_equity (fs : List (ℕ × List SimRow)) (cfg : SimConfig)
    (st : SimState) (q : ℕ × Position) :
    (forceCloseOne fs cfg st q).equity = st.equity := by
  unfold forceCloseOne
  split
  · rfl
  · split
    · rfl
    · rfl

theorem foldl_equity_eq {α : Type} (g : SimState → α → SimState)
    (hg : ∀ st a, (g st a).equity = st.equity) :
    ∀ (l : List α) (st : SimState), (l.foldl g st).equity = st.equity
  | [], _ => rfl
  | a :: l, st => by
    rw [List.foldl_cons, foldl_equity_eq g hg l, hg]

theorem exitPhase_equity (fs : List (ℕ × List SimRow)) (cfg : SimConfig)
    (d : ℕ) (st : SimState) : (exitPhase fs cfg d st).equity = st.equity :=
  foldl_equity_eq _ (fun s a => exitOne_equity fs cfg d s a) _ st

theorem entryPhase_equity (fs : List (ℕ × List SimRow)) (cfg : SimConfig)
    (d : ℕ) (st : SimState) : (entryPhase fs cfg d st).equity = st.equity :=
  foldl_equity_eq _ (fun s f => entryOne_equity cfg d s f) fs st

theorem dayStep_equity_dates (fs : List (ℕ × List SimRow)) (cfg : SimConfig)
    (st : SimState) (d : ℕ) :
    (dayStep fs cfg st d).equity.map (·.date) = st.equity.map (·.date) ++ [d] := by
  unfold dayStep
  dsimp only
  rw [List.map_append, entryPhase_equity, exitPhase_equity]
  rfl

theorem runLoop_equity_dates (fs : List (ℕ × List SimRow)) (cfg : SimConfig) :
    ∀ (dates : List ℕ) (st : SimState),
      (runLoop fs cfg dates st).equity.map (·.date) = st.equity.map (·.date) ++ dates
  | [], st => by simp [runLoop]
  | d :: dates, st => by
    rw [runLoop, List.foldl_cons]
    have ih := runLoop_equity_dates fs cfg dates (dayStep fs cfg st d)
    rw [runLoop] at ih
    rw [ih, dayStep_equity_dates]
    simp

/-- Every snapshot recorded so far satisfies equity = cash + position value. -/
def EqInv (st : SimState) : Prop :=
  ∀ snap ∈ st.equity, snap.equity = snap.cash + snap.pos_value

theorem dayStep_eqinv (fs : List (ℕ × List SimRow)) (cfg : SimConfig)
    (st : SimState) (d : ℕ) (h : EqInv st) : EqInv (dayStep fs cfg st d) := by
  intro snap hs
  unfold dayStep at hs
  dsimp only at hs
  rw [entryPhase_equity, exitPhase_equity] at hs
  rcases List.mem_append.mp hs with h1 | h2
  · exact h snap h1
  · rw [List.mem_singleton.mp h2]

theorem forceClose_eqinv (fs : List (ℕ × List SimRow)) (cfg : SimConfig)
    (st : SimState) (h : EqInv st) : EqInv (forceClose fs cfg st) := by
  unfold forceClose
  split
  · exact h
  · dsimp only
    intro snap hs
    rw [foldl_equity_eq _ (fun s q => forceCloseOne_equity fs cfg s q)] at hs
    rcases List.mem_append.mp hs with h1 | h2
    · exact h snap h1
    · rw [List.mem_singleton.mp h2]
      simp

/-- No trade recorded by the date loop carries the force-close reason. -/
def TrNoEod (st : SimState) : Prop :=
  ∀ t ∈ st.trades, t.exit_reason ≠ ExitReason.eod_force_close

theorem exitDecision_reason (cfg : SimConfig) (row : SimRow) (sp tk : ℚ)
    (pr : ℚ × ExitReason) (h : exitDecision cfg row sp tk = some pr) :
    pr.2 ≠ ExitReason.eod_force_close := by
  unfold exitDecision at h
  split at h
  · cases h; simp
  · split at h
    · cases h; simp
    · split at h
      · cases h; simp
      · cases h

theorem exitOne_treod (fs : List (ℕ × List SimRow)) (cfg : SimConfig)
    (d : ℕ) (st : SimState) (sym : ℕ) (h : TrNoEod st) :
    TrNoEod (exitOne fs cfg d st sym) := by
  unfold exitOne
  split
  · exact h
  · split
    · exact h
    · split
      · exact h
      · dsimp only
        split
        · exact h
        next pr hdec =>
          intro t ht
          rcases List.mem_append.mp ht with h1 | h2
          · exact h t h1
          · rw [List.mem_singleton.mp h2]
            exact exitDecision_reason cfg _ _ _ pr hdec

theorem entryOne_treod (cfg : SimConfig) (d : ℕ) (st : SimState)
    (f : ℕ × List SimRow) (h : TrNoEod st) : TrNoEod (entryOne cfg d st f) := by
  intro t ht
  rw [entryOne_trades] at ht
  exact h t ht

theorem dayStep_treod (fs : List (ℕ × List SimRow)) (cfg : SimConfig)
    (st : SimState) (d : ℕ) (h : TrNoEod st) : TrNoEod (dayStep fs cfg st d) := by
  intro t ht
  unfold dayStep at ht
  dsimp only at ht
  have h2 : TrNoEod (entryPhase fs cfg d (exitPhase fs cfg d st)) := by
    unfold entryPhase exitPhase
    exact foldl_preserve _ _ (fun s f => entryOne_treod cfg d s f) _ _
      (foldl_preserve _ _ (fun s a => exitOne_treod fs cfg d s a) _ _ h)
  exact h2 t ht

theorem runLoop_treod (fs : List (ℕ × List SimRow)) (cfg : SimConfig)
    (dates : List ℕ) (st : SimState) (h : TrNoEod st) :
    TrNoEod (runLoop fs cfg dates st) :=
  foldl_preserve (dayStep fs cfg) TrNoEod
    (fun s d => dayStep_treod fs cfg s d) dates st h

/-- C6, amended: every snapshot returned by simulate_trades satisfies equity
= cash + position_value and the series is sorted ascending by date
(non-strictly); when every position closed inside the date loop (no
eod_force_close trade in the output), the snapshot dates are exactly the
sorted union of the simulated dates — one snapshot per simulated date,
pairwise distinct.  (When positions are force-closed, the cleanup appends one
extra snapshot whose date duplicates the last force-closed symbol's final
date, as the counterexample shows.) -/
theorem equity_wellformed (frames : List (ℕ × List SigRow)) (cfg : SimConfig)
    (hsym : (frames.map (·.1)).Nodup) :
    (∀ snap ∈ (simulate_trades frames cfg).2,
      snap.equity = snap.cash + snap.pos_value) ∧
    List.Sorted snapLE (simulate_trades frames cfg).2 ∧
    ((∀ t ∈ (simulate_trades frames cfg).1,
        t.exit_reason ≠ ExitReason.eod_force_close) →
      ((simulate_trades frames cfg).2.map (·.date) =
        allDates (frames.map (fun p => (p.1, prepFrame p.2))) ∧
       ((simulate_trades frames cfg).2.map (·.date)).Nodup)) := by
  have hkeys : ((frames.map (fun p => (p.1, prepFrame p.2))).map (·.1)).Nodup := by
    have heq : (frames.map (fun p => (p.1, prepFrame p.2))).map (·.1) =
        frames.map (·.1) := by
      rw [List.map_map]; rfl
    rw [heq]; exact hsym
  refine ⟨?_, ?_, ?_⟩
  · intro snap hs
    have hs2 : snap ∈ (forceClose (frames.map (fun p => (p.1, prepFrame p.2))) cfg
        (runLoop (frames.map (fun p => (p.1, prepFrame p.2))) cfg
          (allDates (frames.map (fun p => (p.1, prepFrame p.2)))) (initState cfg))).equity :=
      (List.mem_insertionSort snapLE).mp hs
    have heqv : EqInv (forceClose (frames.map (fun p => (p.1, prepFrame p.2))) cfg
        (runLoop (frames.map (fun p => (p.1, prepFrame p.2))) cfg
          (allDates (frames.map (fun p => (p.1, prepFrame p.2)))) (initState cfg))) :=
      forceClose_eqinv _ cfg _
        (foldl_preserve _ EqInv (fun s d => dayStep_eqinv _ cfg s d) _ _
          (by intro snap2 hs2; cases hs2))
    exact heqv snap hs2
  · exact List.sorted_insertionSort snapLE _
  · intro hnoeod
    obtain ⟨sc, sp, ts, str, slen, sall⟩ := forceClose_spec
      (frames.map (fun p => (p.1, prepFrame p.2))) cfg
      (runLoop (frames.map (fun p => (p.1, prepFrame p.2))) cfg
        (allDates (frames.map (fun p => (p.1, prepFrame p.2)))) (initState cfg))
      (runLoop_stinv _ cfg _ _ hkeys (initState_stinv _ cfg))
      (runLoop_conserved _ cfg _ _ (initState_conserved cfg))
    have hts : ts = [] := by
      cases hts2 : ts with
      | nil => rfl
      | cons t ts2 =>
        exfalso
        have htmem : t ∈ (simulate_trades frames cfg).1 := by
          show t ∈ (forceClose _ cfg _).trades
          rw [str, hts2]
          simp
        exact hnoeod t htmem (sall t (by rw [hts2]; simp))
    have hpos : (runLoop (frames.map (fun p => (p.1, prepFrame p.2))) cfg
        (allDates (frames.map (fun p => (p.1, prepFrame p.2))))
        (initState cfg)).positions = [] := by
      have := slen
      rw [hts] at this
      exact List.length_eq_zero.mp this.symm
    have hid : forceClose (frames.map (fun p => (p.1, prepFrame p.2))) cfg
        (runLoop (frames.map (fun p => (p.1, prepFrame p.2))) cfg
          (allDates (frames.map (fun p => (p.1, prepFrame p.2)))) (initState cfg)) =
        runLoop (frames.map (fun p => (p.1, prepFrame p.2))) cfg
          (allDates (frames.map (fun p => (p.1, prepFrame p.2)))) (initState cfg) := by
      unfold forceClose
      rw [hpos]
    have hdates : (runLoop (frames.map (fun p => (p.1, prepFrame p.2))) cfg
        (allDates (frames.map (fun p => (p.1, prepFrame p.2))))
        (initState cfg)).equity.map (·.date) =
        allDates (frames.map (fun p => (p.1, prepFrame p.2))) := by
      rw [runLoop_equity_dates]
      simp [initState]
    have hnat : List.Pairwise (· ≤ ·)
        (allDates (frames.map (fun p => (p.1, prepFrame p.2)))) :=
      List.sorted_insertionSort _ _
    have hnodup : (allDates (frames.map (fun p => (p.1, prepFrame p.2)))).Nodup :=
      ((List.perm_insertionSort _ _).nodup_iff).mpr (List.nodup_dedup _)
    have hsorted : List.Sorted snapLE
        (runLoop (frames.map (fun p => (p.1, prepFrame p.2))) cfg
          (allDates (frames.map (fun p => (p.1, prepFrame p.2))))
          (initState cfg)).equity := by
      have hp : List.Pairwise (· ≤ ·)
          ((runLoop (frames.map (fun p => (p.1, prepFrame p.2))) cfg
            (allDates (frames.map (fun p => (p.1, prepFrame p.2))))
            (initState cfg)).equity.map (·.date)) := by
        rw [hdates]; exact hnat
      rw [List.pairwise_map] at hp
      exact hp.imp (fun hab => hab)
    have hfinal : (simulate_trades frames cfg).2 =
        (runLoop (frames.map (fun p => (p.1, prepFrame p.2))) cfg
          (allDates (frames.map (fun p => (p.1, prepFrame p.2))))
          (initState cfg)).equity := by
      show List.insertionSort snapLE (forceClose _ cfg _).equity = _
      rw [hid]
      exact List.Sorted.insertionSort_eq hsorted
    rw [hfinal, hdates]
    exact ⟨rfl, hnodup⟩

/-- Witness for C6-amended at a concrete input: one symbol, one date, no
signals, so no trade and no force-close. -/
theorem equity_wellformed_witness :
    ((([(5, [⟨0, 10, 10, 10, 10, none, false, false⟩])] :
        List (ℕ × List SigRow)).map (·.1)).Nodup) ∧
    ((∀ snap ∈ (simulate_trades [(5, [⟨0, 10, 10, 10, 10, none, false, false⟩])]
        ⟨100000, 5, 10, 100, false, 0, 0, false, 0, false, 2, 3, false, 2⟩).2,
      snap.equity = snap.cash + snap.pos_value) ∧
    List.Sorted snapLE (simulate_trades [(5, [⟨0, 10, 10, 10, 10, none, false, false⟩])]
        ⟨100000, 5, 10, 100, false, 0, 0, false, 0, false, 2, 3, false, 2⟩).2 ∧
    ((∀ t ∈ (simulate_trades [(5, [⟨0, 10, 10, 10, 10, none, false, false⟩])]
        ⟨100000, 5, 10, 100, false, 0, 0, false, 0, false, 2, 3, false, 2⟩).1,
        t.exit_reason ≠ ExitReason.eod_force_close) →
      ((simulate_trades [(5, [⟨0, 10, 10, 10, 10, none, false, false⟩])]
        ⟨100000, 5, 10, 100, false, 0, 0, false, 0, false, 2, 3, false, 2⟩).2.map (·.date) =
        allDates (([(5, [⟨0, 10, 10, 10, 10, none, false, false⟩])] :
          List (ℕ × List SigRow)).map (fun p => (p.1, prepFrame p.2))) ∧
       ((simulate_trades [(5, [⟨0, 10, 10, 10, 10, none, false, false⟩])]
        ⟨100000, 5, 10, 100, false, 0, 0, false, 0, false, 2, 3, false, 2⟩).2.map
          (·.date)).Nodup))) :=
  ⟨by simp, equity_wellformed [(5, [⟨0, 10, 10, 10, 10, none, false, false⟩])]
    ⟨100000, 5, 10, 100, false, 0, 0, false, 0, false, 2, 3, false, 2⟩ (by simp)⟩

/-! ## Cash non-negativity -/

/-- The property of a data row that every price field the simulator can turn
into cash is nonnegative. -/
def RowNonneg (r : SimRow) : Prop :=
  0 ≤ r.open_p ∧ 0 ≤ r.low ∧ 0 ≤ r.close ∧ ∀ a, r.atr = some a → 0 ≤ a

/-- All rows of all frames are nonnegative. -/
def FramesNonneg (fs : List (ℕ × List SimRow)) : Prop :=
  ∀ p ∈ fs, ∀ r ∈ p.2, RowNonneg r

/-- Positive-state invariant: cash is nonnegative, every open position has a
nonnegative entry price and a positive share count. -/
def PosInv (st : SimState) : Prop :=
  0 ≤ st.cash ∧ ∀ q ∈ st.positions, 0 ≤ q.2.entry_price ∧ 0 < q.2.shares

theorem mem_zipWith {α β γ : Type} (f : α → β → γ) :
    ∀ (l1 : List α) (l2 : List β) (x : γ), x ∈ List.zipWith f l1 l2 →
      ∃ a ∈ l1, ∃ b ∈ l2, x = f a b
  | [], _, x, h => by cases h
  | _ :: _, [], x, h => by cases h
  | a :: l1, b :: l2, x, h => by
    rcases List.mem_cons.mp h with he | hm
    · exact ⟨a, by simp, b, by simp, he⟩
    · obtain ⟨a2, ha, b2, hb, hx⟩ := mem_zipWith f l1 l2 x hm
      exact ⟨a2, by simp [ha], b2, by simp [hb], hx⟩

theorem prepFrame_nonneg (rows : List SigRow)
    (h : ∀ r ∈ rows, 0 ≤ r.open_p ∧ 0 ≤ r.low ∧ 0 ≤ r.close ∧
      ∀ a, r.atr = some a → 0 ≤ a) :
    ∀ r ∈ prepFrame rows, RowNonneg r := by
  intro r hr
  unfold prepFrame at hr
  obtain ⟨a, ha, b, hb, hx⟩ := mem_zipWith _ _ _ r hr
  have ha2 : a ∈ rows := (List.mem_insertionSort sigLE).mp ha
  have h2 := h a ha2
  rw [hx]
  exact ⟨h2.1, h2.2.1, h2.2.2.1, h2.2.2.2⟩

theorem mem_of_lookup {β : Type} :
    ∀ (l : List (ℕ × β)) (a : ℕ) (b : β), l.lookup a = some b → (a, b) ∈ l
  | [], _, _, h => by simp [List.lookup] at h
  | x :: xs, a, b, h => by
    by_cases hx : (a == x.1) = true
    · have hb : x.2 = b := by simpa [List.lookup, hx] using h
      have ha : a = x.1 := eq_of_beq hx
      rw [ha, ← hb]
      simp
    · have h2 : xs.lookup a = some b := by simpa [List.lookup, hx] using h
      exact List.mem_cons_of_mem x (mem_of_lookup xs a b h2)

theorem apply_slippage_exit_nonneg (cfg : SimConfig) (price : ℚ)
    (hp : 0 ≤ price) (hs : cfg.slippage_pct ≤ 100) :
    0 ≤ apply_slippage price false cfg := by
  unfold apply_slippage
  split
  · have h1 : price * (cfg.slippage_pct / 100) ≤ price * 1 := by
      apply mul_le_mul_of_nonneg_left _ hp
      linarith
    simp only [Bool.false_eq_true, if_false]
    linarith
  · exact hp

theorem apply_slippage_entry_nonneg (cfg : SimConfig) (price : ℚ)
    (hp : 0 ≤ price) : 0 ≤ apply_slippage price true cfg := by
  unfold apply_slippage
  split
  next hcond =>
    simp only [if_true]
    have h0 : (0 : ℚ) ≤ cfg.slippage_pct / 100 :=
      div_nonneg (le_of_lt hcond.2) (by norm_num)
    have : 0 ≤ price * (cfg.slippage_pct / 100) := mul_nonneg hp h0
    linarith
  · exact hp

theorem stopTake_tp_nonneg (cfg : SimConfig) (pos : Position) (row : SimRow)
    (he : 0 ≤ pos.entry_price) (htp : 0 ≤ cfg.take_profit_pct)
    (hmtp : 0 ≤ cfg.atr_multiplier_tp)
    (hatr : ∀ a, row.atr = some a → 0 ≤ a) :
    0 ≤ (stopTake cfg pos row).2 := by
  unfold stopTake
  cases hif : (if cfg.enable_atr_stop = true then row.atr else none) with
  | none =>
    dsimp only
    have h1 : (0 : ℚ) ≤ cfg.take_profit_pct / 100 := by positivity
    have h2 : (0 : ℚ) ≤ 1 + cfg.take_profit_pct / 100 := by linarith
    exact mul_nonneg he h2
  | some a =>
    dsimp only
    have ha : row.atr = some a := by
      by_cases h2 : cfg.enable_atr_stop = true
      · simpa [h2] using hif
      · simp [h2] at hif
    exact add_nonneg he (mul_nonneg hmtp (hatr a ha))

theorem exitOne_posinv (fs : List (ℕ × List SimRow)) (cfg : SimConfig)
    (d : ℕ) (st : SimState) (sym : ℕ)
    (hcomm : cfg.enable_commission = false)
    (hslip : cfg.slippage_pct ≤ 100)
    (htp : 0 ≤ cfg.take_profit_pct)
    (hmtp : 0 ≤ cfg.atr_multiplier_tp)
    (hrows : FramesNonneg fs)
    (h : PosInv st) : PosInv (exitOne fs cfg d st sym) := by
  unfold exitOne
  split
  · exact h
  next pos hl =>
    split
    · exact h
    next s hsf =>
      split
      · exact h
      next row hrf =>
        dsimp only
        split
        · exact h
        next pr hdec =>
          have hpq := h.2 (sym, pos) (mem_of_lookup st.positions sym pos hl)
          have hrow : RowNonneg row :=
            hrows (sym, s) (mem_of_lookup fs sym s hsf) row
              (List.mem_of_find?_eq_some hrf)
          have hp0 : 0 ≤ pr.1 := by
            unfold exitDecision at hdec
            split at hdec
            next h1 =>
              cases hdec
              exact le_trans hrow.2.1 h1
            · split at hdec
              · cases hdec
                exact stopTake_tp_nonneg cfg pos row hpq.1 htp hmtp hrow.2.2.2
              · split at hdec
                · cases hdec
                  exact apply_slippage_exit_nonneg cfg row.open_p hrow.1 hslip
                · cases hdec
          have hexit : 0 ≤ (if cfg.enable_slippage = true then
              apply_slippage pr.1 false cfg else pr.1) := by
            split
            · exact apply_slippage_exit_nonneg cfg pr.1 hp0 hslip
            · exact hp0
          have hc0 : commission_cost (if cfg.enable_slippage = true then
              apply_slippage pr.1 false cfg else pr.1) pos.shares cfg = 0 := by
            simp [commission_cost, hcomm]
          constructor
          · dsimp only
            rw [hc0]
            have hshq : (0 : ℚ) ≤ (pos.shares : ℚ) :=
              Int.cast_nonneg.mpr (le_of_lt hpq.2)
            have : 0 ≤ (if cfg.enable_slippage = true then
                apply_slippage pr.1 false cfg else pr.1) * (pos.shares : ℚ) :=
              mul_nonneg hexit hshq
            have hcash := h.1
            linarith
          · intro q hq
            exact h.2 q ((List.eraseP_sublist st.positions).subset hq)

theorem entryCommit_posinv (cfg : SimConfig) (d : ℕ) (st : SimState)
    (sym : ℕ) (ep : ℚ) (sh : ℤ)
    (hcomm : cfg.enable_commission = false)
    (hep : 0 ≤ ep)
    (hle : ep * (sh : ℚ) ≤ st.cash)
    (h : PosInv st) : PosInv (entryCommit cfg d st sym ep sh) := by
  unfold entryCommit
  split
  · exact h
  next hshpos =>
    dsimp only
    split
    · exact h
    · have hc0 : commission_cost ep sh cfg = 0 := by simp [commission_cost, hcomm]
      constructor
      · dsimp only
        rw [hc0]
        linarith
      · intro q hq
        rcases List.mem_append.mp hq with h1 | h2
        · exact h.2 q h1
        · rw [List.mem_singleton.mp h2]
          refine ⟨hep, ?_⟩
          show 0 < sh
          omega

theorem entryOne_posinv (fs : List (ℕ × List SimRow)) (cfg : SimConfig)
    (d : ℕ) (st : SimState) (f : ℕ × List SimRow)
    (hcomm : cfg.enable_commission = false)
    (hrows : FramesNonneg fs) (hmem : f ∈ fs)
    (h : PosInv st) : PosInv (entryOne cfg d st f) := by
  unfold entryOne
  split
  · exact h
  next row hrf =>
    split
    · exact h
    · split
      · exact h
      · dsimp only
        have hrow : RowNonneg row := hrows f hmem row (List.mem_of_find?_eq_some hrf)
        have hep : 0 ≤ apply_slippage row.open_p true cfg :=
          apply_slippage_entry_nonneg cfg row.open_p hrow.1
        apply entryCommit_posinv cfg d st f.1 _ _ hcomm hep _ h
        set ep := apply_slippage row.open_p true cfg with hepd
        set desired : ℤ := (if cfg.enable_risk_sizing = true then
            if (match (if cfg.enable_atr_stop = true then row.atr else none) with
              | some a => cfg.atr_multiplier_sl * a
              | none => ep * (cfg.stop_loss_pct / 100)) ≤ 0 then cfg.position_size
            else max 1 ⌊st.cash * (cfg.risk_per_trade_pct / 100) /
              (match (if cfg.enable_atr_stop = true then row.atr else none) with
                | some a => cfg.atr_multiplier_sl * a
                | none => ep * (cfg.stop_loss_pct / 100))⌋
          else cfg.position_size) with hdes
        by_cases hpos : 0 < ep
        · have hmin : min desired ⌊st.cash / (if 0 < ep then ep else 1 / 1000000000)⌋ ≤
              ⌊st.cash / ep⌋ := by
            rw [if_pos hpos]
            exact min_le_right _ _
          have hq : ((min desired ⌊st.cash / (if 0 < ep then ep else 1 / 1000000000)⌋ : ℤ) : ℚ) ≤
              st.cash / ep := by
            calc ((min desired ⌊st.cash / (if 0 < ep then ep else 1 / 1000000000)⌋ : ℤ) : ℚ)
                ≤ ((⌊st.cash / ep⌋ : ℤ) : ℚ) := by exact_mod_cast hmin
              _ ≤ st.cash / ep := Int.floor_le _
          calc ep * ((min desired ⌊st.cash / (if 0 < ep then ep else 1 / 1000000000)⌋ : ℤ) : ℚ)
              ≤ ep * (st.cash / ep) := mul_le_mul_of_nonneg_left hq hep
            _ = st.cash := by field_simp
        · have hep0 : ep = 0 := le_antisymm (not_lt.mp hpos) hep
          rw [hep0]
          simp
          exact le_trans (by norm_num) h.1

theorem exitFold_posinv (fs : List (ℕ × List SimRow)) (cfg : SimConfig) (d : ℕ)
    (hcomm : cfg.enable_commission = false)
    (hslip : cfg.slippage_pct ≤ 100)
    (htp : 0 ≤ cfg.take_profit_pct)
    (hmtp : 0 ≤ cfg.atr_multiplier_tp)
    (hrows : FramesNonneg fs)
    (syms : List ℕ) (st : SimState) (h : PosInv st) :
    PosInv (syms.foldl (exitOne fs cfg d) st) :=
  foldl_preserve _ PosInv
    (fun s a => exitOne_posinv fs cfg d s a hcomm hslip htp hmtp hrows) syms st h

theorem entryFold_posinv (fs : List (ℕ × List SimRow)) (cfg : SimConfig) (d : ℕ)
    (hcomm : cfg.enable_commission = false) (hrows : FramesNonneg fs) :
    ∀ (gs : List (ℕ × List SimRow)) (st : SimState), (∀ g ∈ gs, g ∈ fs) →
      PosInv st → PosInv (gs.foldl (entryOne cfg d) st)
  | [], _, _, h => h
  | g :: gs, st, hsub, h =>
    entryFold_posinv fs cfg d hcomm hrows gs (entryOne cfg d st g)
      (fun x hx => hsub x (List.mem_cons_of_mem g hx))
      (entryOne_posinv fs cfg d st g hcomm hrows (hsub g (List.mem_cons_self g gs)) h)

/-- Joint positivity invariant over state and recorded snapshots. -/
def CashInv (st : SimState) : Prop :=
  PosInv st ∧ ∀ snap ∈ st.equity, 0 ≤ snap.cash

theorem dayStep_cashinv (fs : List (ℕ × List SimRow)) (cfg : SimConfig)
    (hcomm : cfg.enable_commission = false)
    (hslip : cfg.slippage_pct ≤ 100)
    (htp : 0 ≤ cfg.take_profit_pct)
    (hmtp : 0 ≤ cfg.atr_multiplier_tp)
    (hrows : FramesNonneg fs)
    (st : SimState) (d : ℕ) (h : CashInv st) : CashInv (dayStep fs cfg st d) := by
  have h2 : PosInv (entryPhase fs cfg d (exitPhase fs cfg d st)) := by
    unfold entryPhase exitPhase
    exact entryFold_posinv fs cfg d hcomm hrows fs _ (fun _ hx => hx)
      (exitFold_posinv fs cfg d hcomm hslip htp hmtp hrows _ st h.1)
  constructor
  · constructor
    · show 0 ≤ (dayStep fs cfg st d).cash
      unfold dayStep
      exact h2.1
    · intro q hq
      have : (dayStep fs cfg st d).positions =
          (entryPhase fs cfg d (exitPhase fs cfg d st)).positions := rfl
      rw [this] at hq
      exact h2.2 q hq
  · intro snap hs
    unfold dayStep at hs
    dsimp only at hs
    rw [entryPhase_equity, exitPhase_equity] at hs
    rcases List.mem_append.mp hs with h1 | h2b
    · exact h.2 snap h1
    · rw [List.mem_singleton.mp h2b]
      exact h2.1

theorem forceCloseOne_posinv (fs : List (ℕ × List SimRow)) (cfg : SimConfig)
    (st : SimState) (q : ℕ × Position)
    (hcomm : cfg.enable_commission = false)
    (hrows : FramesNonneg fs)
    (hq : q ∈ st.positions)
    (h : PosInv st) : PosInv (forceCloseOne fs cfg st q) := by
  unfold forceCloseOne
  split
  · exact h
  next s hsf =>
    split
    · exact h
    next lastRow hlast =>
      have hrow : RowNonneg lastRow :=
        hrows (q.1, s) (mem_of_lookup fs q.1 s hsf) lastRow
          (List.mem_of_getLast?_eq_some hlast)
      have hpq := h.2 q hq
      have hc0 : commission_cost lastRow.close q.2.shares cfg = 0 := by
        simp [commission_cost, hcomm]
      constructor
      · dsimp only
        rw [hc0]
        have hshq : (0 : ℚ) ≤ (q.2.shares : ℚ) := Int.cast_nonneg.mpr (le_of_lt hpq.2)
        have := mul_nonneg hrow.2.2.1 hshq
        have hcash := h.1
        linarith
      · intro p hp
        exact h.2 p ((List.eraseP_sublist st.positions).subset hp)

theorem forceCloseFold_posinv (fs : List (ℕ × List SimRow)) (cfg : SimConfig)
    (hcomm : cfg.enable_commission = false) (hrows : FramesNonneg fs) :
    ∀ (ps : List (ℕ × Position)) (st : SimState),
      st.positions = ps → ((ps.map (·.1)).Nodup) →
      (∀ q ∈ ps, ∃ s, fs.lookup q.1 = some s ∧ s ≠ []) →
      PosInv st → PosInv (ps.foldl (forceCloseOne fs cfg) st)
  | [], _, _, _, _, h => h
  | q :: rest, st, hps, hnd, hfr, h => by
    obtain ⟨s, hlook, hne⟩ := hfr q (List.mem_cons_self q rest)
    obtain ⟨lastRow, hlast⟩ : ∃ r, s.getLast? = some r := by
      cases hsl : s.getLast? with
      | none => exact absurd (List.getLast?_eq_none_iff.mp hsl) hne
      | some r => exact ⟨r, rfl⟩
    have hps2 : (forceCloseOne fs cfg st q).positions = rest := by
      simp only [forceCloseOne, hlook, hlast]
      rw [hps]
      simp [List.eraseP_cons_of_pos]
    have h2 : PosInv (forceCloseOne fs cfg st q) :=
      forceCloseOne_posinv fs cfg st q hcomm hrows (by rw [hps]; simp) h
    rw [List.foldl_cons]
    exact forceCloseFold_posinv fs cfg hcomm hrows rest _ hps2
      (by rw [List.map_cons, List.nodup_cons] at hnd; exact hnd.2)
      (fun x hx => hfr x (List.mem_cons_of_mem q hx)) h2

theorem forceClose_cashinv (fs : List (ℕ × List SimRow)) (cfg : SimConfig)
    (hcomm : cfg.enable_commission = false) (hrows : FramesNonneg fs)
    (st : SimState) (hstinv : StInv fs st) (h : CashInv st) :
    CashInv (forceClose fs cfg st) := by
  unfold forceClose
  split
  · exact h
  · dsimp only
    have hp2 : PosInv (st.positions.foldl (forceCloseOne fs cfg) st) :=
      forceCloseFold_posinv fs cfg hcomm hrows st.positions st rfl
        hstinv.1 hstinv.2 h.1
    constructor
    · exact ⟨hp2.1, hp2.2⟩
    · intro snap hs
      rw [foldl_equity_eq _ (fun s q => forceCloseOne_equity fs cfg s q)] at hs
      rcases List.mem_append.mp hs with h1 | h2
      · exact h.2 snap h1
      · rw [List.mem_singleton.mp h2]
        exact hp2.1

set_option maxHeartbeats 400000 in
/-- C3, amended: cash never goes negative at any point in the date loop —
before the loop, after any run of exit credits, and after any further run of
entry debits — and every returned equity snapshot records nonnegative cash,
PROVIDED the initial capital is nonnegative, commission is disabled, the
slippage percentage is at most 100, the take-profit percentage and the ATR
take-profit multiplier are nonnegative, and every bar's open, low, close and
defined ATR are nonnegative.  (As stated over arbitrary configurations the
claim is false: the counterexample shows the entry guard's 1e-9 tolerance
plus a tiny flat commission drives cash to -5e-10; exits can also credit
negative proceeds when commissions or negative stop/target prices occur.) -/
theorem cash_nonneg (frames : List (ℕ × List SigRow)) (cfg : SimConfig)
    (hic : 0 ≤ cfg.initial_capital)
    (hcomm : cfg.enable_commission = false)
    (hslip : cfg.slippage_pct ≤ 100)
    (htp : 0 ≤ cfg.take_profit_pct)
    (hmtp : 0 ≤ cfg.atr_multiplier_tp)
    (hsym : (frames.map (·.1)).Nodup)
    (hrows : ∀ p ∈ frames, ∀ r ∈ p.2, 0 ≤ r.open_p ∧ 0 ≤ r.low ∧ 0 ≤ r.close ∧
      ∀ a, r.atr = some a → 0 ≤ a) :
    (∀ snap ∈ (simulate_trades frames cfg).2, 0 ≤ snap.cash) ∧
    (∀ (ds : List ℕ) (d : ℕ) (syms : List ℕ),
      0 ≤ (syms.foldl (exitOne (frames.map (fun p => (p.1, prepFrame p.2))) cfg d)
        (runLoop (frames.map (fun p => (p.1, prepFrame p.2))) cfg ds
          (initState cfg))).cash) ∧
    (∀ (ds : List ℕ) (d : ℕ) (syms : List ℕ) (gs : List (ℕ × List SimRow)),
      (∀ g ∈ gs, g ∈ frames.map (fun p => (p.1, prepFrame p.2))) →
      0 ≤ ((gs.foldl (entryOne cfg d)
        (syms.foldl (exitOne (frames.map (fun p => (p.1, prepFrame p.2))) cfg d)
          (runLoop (frames.map (fun p => (p.1, prepFrame p.2))) cfg ds
            (initState cfg))))).cash) := by
  have hfnn : FramesNonneg (frames.map (fun p => (p.1, prepFrame p.2))) := by
    intro p hp r hr
    obtain ⟨p0, hp0, hpe⟩ := List.mem_map.mp hp
    rw [← hpe] at hr
    exact prepFrame_nonneg p0.2 (hrows p0 hp0) r hr
  have hkeys : ((frames.map (fun p => (p.1, prepFrame p.2))).map (·.1)).Nodup := by
    have heq : (frames.map (fun p => (p.1, prepFrame p.2))).map (·.1) =
        frames.map (·.1) := by
      rw [List.map_map]; rfl
    rw [heq]; exact hsym
  have hinit : CashInv (initState cfg) := by
    refine ⟨⟨?_, ?_⟩, ?_⟩
    · exact hic
    · intro q hq; simp [initState] at hq
    · intro snap hs; simp [initState] at hs
  have hloop : ∀ ds, CashInv (runLoop (frames.map (fun p => (p.1, prepFrame p.2)))
      cfg ds (initState cfg)) := fun ds =>
    foldl_preserve _ CashInv
      (fun s d => dayStep_cashinv _ cfg hcomm hslip htp hmtp hfnn s d) ds _ hinit
  refine ⟨?_, ?_, ?_⟩
  · intro snap hs
    have hs2 : snap ∈ (forceClose (frames.map (fun p => (p.1, prepFrame p.2))) cfg
        (runLoop (frames.map (fun p => (p.1, prepFrame p.2))) cfg
          (allDates (frames.map (fun p => (p.1, prepFrame p.2))))
          (initState cfg))).equity :=
      (List.mem_insertionSort snapLE).mp hs
    have h1 : StInv (frames.map (fun p => (p.1, prepFrame p.2)))
        (runLoop (frames.map (fun p => (p.1, prepFrame p.2))) cfg
          (allDates (frames.map (fun p => (p.1, prepFrame p.2)))) (initState cfg)) :=
      runLoop_stinv (frames.map (fun p => (p.1, prepFrame p.2))) cfg
        (allDates (frames.map (fun p => (p.1, prepFrame p.2)))) (initState cfg)
        hkeys (initState_stinv (frames.map (fun p => (p.1, prepFrame p.2))) cfg)
    have h2 : CashInv (runLoop (frames.map (fun p => (p.1, prepFrame p.2))) cfg
        (allDates (frames.map (fun p => (p.1, prepFrame p.2)))) (initState cfg)) :=
      hloop _
    have hcf : CashInv (forceClose (frames.map (fun p => (p.1, prepFrame p.2))) cfg
        (runLoop (frames.map (fun p => (p.1, prepFrame p.2))) cfg
          (allDates (frames.map (fun p => (p.1, prepFrame p.2)))) (initState cfg))) :=
      forceClose_cashinv _ cfg hcomm hfnn _ h1 h2
    exact hcf.2 snap hs2
  · intro ds d syms
    exact (exitFold_posinv _ cfg d hcomm hslip htp hmtp hfnn syms _ (hloop ds).1).1
  · intro ds d syms gs hsub
    exact (entryFold_posinv _ cfg d hcomm hfnn gs _ hsub
      (exitFold_posinv _ cfg d hcomm hslip htp hmtp hfnn syms _ (hloop ds).1)).1

/-- Witness for C3-amended at a concrete input: one symbol, one quiet day,
plain default-style configuration. -/
theorem cash_nonneg_witness :
    ((0 : ℚ) ≤ 100000 ∧
     ((⟨100000, 5, 10, 100, false, 0, 0, false, 0, false, 2, 3, false, 2⟩ :
        SimConfig).enable_commission = false) ∧
     ((⟨100000, 5, 10, 100, false, 0, 0, false, 0, false, 2, 3, false, 2⟩ :
        SimConfig).slippage_pct ≤ 100) ∧
     ((([(0, [⟨0, 10, 12, 9, 11, none, false, false⟩])] :
        List (ℕ × List SigRow)).map (·.1)).Nodup)) ∧
    ((∀ snap ∈ (simulate_trades [(0, [⟨0, 10, 12, 9, 11, none, false, false⟩])]
        ⟨100000, 5, 10, 100, false, 0, 0, false, 0, false, 2, 3, false, 2⟩).2,
      0 ≤ snap.cash) ∧
    (∀ (ds : List ℕ) (d : ℕ) (syms : List ℕ),
      0 ≤ (syms.foldl (exitOne (([(0, [⟨0, 10, 12, 9, 11, none, false, false⟩])] :
          List (ℕ × List SigRow)).map (fun p => (p.1, prepFrame p.2)))
          ⟨100000, 5, 10, 100, false, 0, 0, false, 0, false, 2, 3, false, 2⟩ d)
        (runLoop (([(0, [⟨0, 10, 12, 9, 11, none, false, false⟩])] :
          List (ℕ × List SigRow)).map (fun p => (p.1, prepFrame p.2)))
          ⟨100000, 5, 10, 100, false, 0, 0, false, 0, false, 2, 3, false, 2⟩ ds
          (initState ⟨100000, 5, 10, 100, false, 0, 0, false, 0, false, 2, 3, false, 2⟩))).cash) ∧
    (∀ (ds : List ℕ) (d : ℕ) (syms : List ℕ) (gs : List (ℕ × List SimRow)),
      (∀ g ∈ gs, g ∈ ([(0, [⟨0, 10, 12, 9, 11, none, false, false⟩])] :
        List (ℕ × List SigRow)).map (fun p => (p.1, prepFrame p.2))) →
      0 ≤ ((gs.foldl (entryOne
          ⟨100000, 5, 10, 100, false, 0, 0, false, 0, false, 2, 3, false, 2⟩ d)
        (syms.foldl (exitOne (([(0, [⟨0, 10, 12, 9, 11, none, false, false⟩])] :
            List (ℕ × List SigRow)).map (fun p => (p.1, prepFrame p.2)))
            ⟨100000, 5, 10, 100, false, 0, 0, false, 0, false, 2, 3, false, 2⟩ d)
          (runLoop (([(0, [⟨0, 10, 12, 9, 11, none, false, false⟩])] :
            List (ℕ × List SigRow)).map (fun p => (p.1, prepFrame p.2)))
            ⟨100000, 5, 10, 100, false, 0, 0, false, 0, false, 2, 3, false, 2⟩ ds
            (initState ⟨100000, 5, 10, 100, false, 0, 0, false, 0, false, 2, 3,
              false, 2⟩))))).cash)) :=
  ⟨⟨by norm_num, rfl, by norm_num, by simp⟩,
    cash_nonneg [(0, [⟨0, 10, 12, 9, 11, none, false, false⟩])]
      ⟨100000, 5, 10, 100, false, 0, 0, false, 0, false, 2, 3, false, 2⟩
      (by norm_num) rfl (by norm_num) (by norm_num) (by norm_num) (by simp)
      (by intro p hp r hr
          simp only [List.mem_singleton] at hp
          subst hp
          simp only [List.mem_singleton] at hr
          subst hr
          refine ⟨by norm_num, by norm_num, by norm_num, ?_⟩
          intro a ha
          cases ha)⟩

/-- C4, amended: the end-of-day snapshot values the open positions as shares
times a per-symbol mark price, and for a symbol with no bar on the current
date that mark is the close of the LAST row of the symbol's entire frame
(`s['close'].ffill().iloc[-1]`) — which can be a close from a date after the
current one — not the most recent close at or before the current date. -/
theorem mark_fallback (fs : List (ℕ × List SimRow)) (cfg : SimConfig)
    (st : SimState) (d : ℕ) (sym : ℕ) (s : List SimRow) (lastRow : SimRow)
    (hlook : fs.lookup sym = some s)
    (hnorow : s.find? (fun r => r.date == d) = none)
    (hlast : s.getLast? = some lastRow) :
    markCloseF fs sym d = lastRow.close ∧
    (dayStep fs cfg st d).equity =
      (entryPhase fs cfg d (exitPhase fs cfg d st)).equity ++
        [{ date := d,
           cash := (entryPhase fs cfg d (exitPhase fs cfg d st)).cash,
           pos_value := ((entryPhase fs cfg d (exitPhase fs cfg d st)).positions.map
             (fun q => (q.2.shares : ℚ) * markCloseF fs q.1 d)).sum,
           equity := (entryPhase fs cfg d (exitPhase fs cfg d st)).cash +
             ((entryPhase fs cfg d (exitPhase fs cfg d st)).positions.map
               (fun q => (q.2.shares : ℚ) * markCloseF fs q.1 d)).sum }] := by
  constructor
  · unfold markCloseF
    rw [hlook]
    simp [markClose, hnorow, hlast]
  · rfl

/-- Witness for C4-amended at a concrete input: frame with bars on dates 1
and 3, valued on date 2. -/
theorem mark_fallback_witness :
    (([(0, [(⟨1, 10, 10, 10, 10, none, false, false⟩ : SimRow),
            ⟨3, 99, 99, 99, 99, none, false, false⟩])] :
        List (ℕ × List SimRow)).lookup 0 =
      some [⟨1, 10, 10, 10, 10, none, false, false⟩,
            ⟨3, 99, 99, 99, 99, none, false, false⟩]) ∧
    (([(⟨1, 10, 10, 10, 10, none, false, false⟩ : SimRow),
       ⟨3, 99, 99, 99, 99, none, false, false⟩].find? (fun r => r.date == 2)) = none) ∧
    (([(⟨1, 10, 10, 10, 10, none, false, false⟩ : SimRow),
       ⟨3, 99, 99, 99, 99, none, false, false⟩].getLast?) =
      some ⟨3, 99, 99, 99, 99, none, false, false⟩) ∧
    markCloseF [(0, [⟨1, 10, 10, 10, 10, none, false, false⟩,
                     ⟨3, 99, 99, 99, 99, none, false, false⟩])] 0 2 =
      (⟨3, 99, 99, 99, 99, none, false, false⟩ : SimRow).close :=
  ⟨rfl, rfl, rfl,
    (mark_fallback [(0, [⟨1, 10, 10, 10, 10, none, false, false⟩,
        ⟨3, 99, 99, 99, 99, none, false, false⟩])]
      ⟨100000, 5, 10, 100, false, 0, 0, false, 0, false, 2, 3, false, 2⟩
      (initState ⟨100000, 5, 10, 100, false, 0, 0, false, 0, false, 2, 3, false, 2⟩)
      2 0 [⟨1, 10, 10, 10, 10, none, false, false⟩,
           ⟨3, 99, 99, 99, 99, none, false, false⟩]
      ⟨3, 99, 99, 99, 99, none, false, false⟩ rfl rfl rfl).1⟩

/-- C10: an empty trade ledger yields the all-zero metrics record (with
profit_factor the literal 0, not the infinite sentinel) for every equity
series argument and every configuration, and no error path is involved. -/
theorem empty_ledger_metrics (equityOpt : Option (List EquitySnapshot))
    (cfg : SimConfig) :
    calculate_metrics [] equityOpt cfg =
      { total_trades := 0, winning_trades := 0, losing_trades := 0
        win_rate_pct := 0, avg_profit_pct := 0, avg_loss_pct := 0
        max_win := 0, max_loss := 0, profit_factor := some 0
        max_drawdown_pct := 0, total_return_pct := 0, sharpe := .zero
        gross_profit := 0, gross_loss := 0, net_profit := 0, net_profit_pct := 0 } := rfl

/-- C9, amended: for a non-empty ledger the profit factor is the infinite
sentinel exactly when gross loss is zero (regardless of whether gross profit
is positive), and is gross profit / gross loss whenever gross loss is
positive. -/
theorem profit_factor_spec (trades : List Trade) (h : trades ≠ [])
    (equityOpt : Option (List EquitySnapshot)) (cfg : SimConfig) :
    ((calculate_metrics trades equityOpt cfg).profit_factor = none ↔
      (calculate_metrics trades equityOpt cfg).gross_loss = 0) ∧
    (0 < (calculate_metrics trades equityOpt cfg).gross_loss →
      (calculate_metrics trades equityOpt cfg).profit_factor =
        some ((calculate_metrics trades equityOpt cfg).gross_profit /
          (calculate_metrics trades equityOpt cfg).gross_loss)) := by
  match trades with
  | [] => exact absurd rfl h
  | t :: ts =>
    simp only [calculate_metrics]
    set losses := (List.insertionSort tradeLE (t :: ts)).filter
      (fun u => decide (u.net_pnl ≤ 0)) with hl
    set gl := if 0 < losses.length then |(losses.map (·.net_pnl)).sum| else 0 with hgl
    have hnn : 0 ≤ gl := by
      rw [hgl]; split
      · exact abs_nonneg _
      · exact le_refl 0
    constructor
    · by_cases hpos : 0 < gl
      · simp only [if_pos hpos]
        constructor
        · intro hc; exact absurd hc (Option.some_ne_none _)
        · intro hc; exact absurd hc (ne_of_gt hpos)
      · have : gl = 0 := le_antisymm (not_lt.mp hpos) hnn
        simp [hpos, this]
    · intro hpos
      simp only [if_pos hpos]

/-- Witness for C9-amended at a concrete input: a one-trade ledger with a
positive net pnl. -/
theorem profit_factor_spec_witness :
    ([⟨0, 0, 100, 1, 110, 1, 10, 0, 10, 10, .take_profit, 1⟩] : List Trade) ≠ [] ∧
    (((calculate_metrics [⟨0, 0, 100, 1, 110, 1, 10, 0, 10, 10, .take_profit, 1⟩] none
        ⟨100000, 5, 10, 100, false, 0, 0, false, 0, false, 2, 3, false, 2⟩).profit_factor = none ↔
      (calculate_metrics [⟨0, 0, 100, 1, 110, 1, 10, 0, 10, 10, .take_profit, 1⟩] none
        ⟨100000, 5, 10, 100, false, 0, 0, false, 0, false, 2, 3, false, 2⟩).gross_loss = 0) ∧
    (0 < (calculate_metrics [⟨0, 0, 100, 1, 110, 1, 10, 0, 10, 10, .take_profit, 1⟩] none
        ⟨100000, 5, 10, 100, false, 0, 0, false, 0, false, 2, 3, false, 2⟩).gross_loss →
      (calculate_metrics [⟨0, 0, 100, 1, 110, 1, 10, 0, 10, 10, .take_profit, 1⟩] none
        ⟨100000, 5, 10, 100, false, 0, 0, false, 0, false, 2, 3, false, 2⟩).profit_factor =
        some ((calculate_metrics [⟨0, 0, 100, 1, 110, 1, 10, 0, 10, 10, .take_profit, 1⟩] none
          ⟨100000, 5, 10, 100, false, 0, 0, false, 0, false, 2, 3, false, 2⟩).gross_profit /
          (calculate_metrics [⟨0, 0, 100, 1, 110, 1, 10, 0, 10, 10, .take_profit, 1⟩] none
          ⟨100000, 5, 10, 100, false, 0, 0, false, 0, false, 2, 3, false, 2⟩).gross_loss))) :=
  ⟨List.cons_ne_nil _ _,
    profit_factor_spec _ (List.cons_ne_nil _ _) none
      ⟨100000, 5, 10, 100, false, 0, 0, false, 0, false, 2, 3, false, 2⟩⟩

/-- C9, counterexample to the claim as stated: a single trade with net pnl
exactly 0 lands in the losses bucket, so gross loss is 0 while gross profit is
also 0 (not positive), yet the source still returns the infinite sentinel.
The claim's "infinite iff gross loss is zero AND gross profit is positive"
is therefore false on this ledger. -/
theorem profit_factor_zero_trade_cx :
    (calculate_metrics [⟨0, 0, 100, 1, 100, 1, 0, 0, 0, 0, .signal_exit, 1⟩] none
      ⟨100000, 5, 10, 100, false, 0, 0, false, 0, false, 2, 3, false, 2⟩).profit_factor = none ∧
    ¬ (0 < (calculate_metrics [⟨0, 0, 100, 1, 100, 1, 0, 0, 0, 0, .signal_exit, 1⟩] none
      ⟨100000, 5, 10, 100, false, 0, 0, false, 0, false, 2, 3, false, 2⟩).gross_profit) := by
  with_unfolding_all decide

end Backtester
